import Mathlib

/-!
Verification of the talisman-ai-api validation coordinator.

This file gives a shallow embedding, in Lean 4, of the core data model and
operations of the coordinator (src/database.py, src/utils/validation.py,
src/utils/block.py), and proves or refutes the frozen specification claims
about them.

Modelling conventions:
* SQL tables become Lean lists of structure values; SQL `INTEGER` booleans
  (0/1) become `Bool`, nullable columns become `Option`.
* `REAL` columns (scores, sentiment) and the seconds-per-block period are
  modelled as exact rationals `ℚ`.
* `uuid.uuid4()` is modelled as a fresh-identifier counter carried in the
  state (`nextUuid`): each mint yields an identifier distinct from every
  identifier minted before, which is exactly the property the code relies
  on (and which the UNIQUE constraint on `submissions.validation_id`
  enforces).
* Each database critical section (a `with _db_lock:` block, or a single
  transaction such as the one in `get_pending_validations`) is one atomic
  state transformer.  `select_post_for_validation` consists of two write
  critical sections separated by a network call; in this repository it is
  invoked exactly once per newly inserted submission (src/main.py calls it
  only when `insert_submission` reported `is_new`), and no other operation
  writes the promotion columns of a submission, so executing the two
  sections back to back is observationally equivalent for every reachable
  database state and the whole call is modelled as one atomic step.

The file is organised with all definitions first, followed by all lemmas
and the claim theorems.
-/

namespace Talisman

/-- Tuning knobs read from the environment at import time
(src/database.py lines 75-87); each is validated strictly positive. -/
structure Config where
  maxSubmissionRate : ℕ
  validationsPerRequest : ℕ
  blocksPerWindow : ℕ
  secondsPerBlock : ℚ
  maxSubmissionRate_pos : 0 < maxSubmissionRate
  validationsPerRequest_pos : 0 < validationsPerRequest
  blocksPerWindow_pos : 0 < blocksPerWindow
  secondsPerBlock_pos : 0 < secondsPerBlock

/-- Default configuration: MAX_SUBMISSION_RATE=5, VALIDATIONS_PER_REQUEST=5,
BLOCKS_PER_WINDOW=100, SECONDS_PER_BLOCK=12.0. -/
def Config.default : Config :=
  ⟨5, 5, 100, 12, by norm_num, by norm_num, by norm_num, by norm_num⟩

/-- Embeds `_get_block_window_start` (src/database.py line 332):
`(block // BLOCKS_PER_WINDOW) * BLOCKS_PER_WINDOW`. -/
def blockWindowStart (cfg : Config) (block : ℕ) : ℕ :=
  block / cfg.blocksPerWindow * cfg.blocksPerWindow

/-- Embeds `_get_block_window_end` (src/database.py line 337):
`window_start + BLOCKS_PER_WINDOW - 1`. -/
def blockWindowEnd (cfg : Config) (block : ℕ) : ℕ :=
  blockWindowStart cfg block + cfg.blocksPerWindow - 1

/-! ## src/utils/validation.py : metric tolerance -/

/-- Embeds `POST_METRIC_TOLERANCE = 0.1` (src/utils/validation.py line 15);
the Python float `0.1` is idealised as the exact rational 1/10. -/
def POST_METRIC_TOLERANCE : ℚ := 1 / 10

/-- Embeds `metric_tol` (src/utils/validation.py lines 59-69):
`1 if live == 0 else max(1, math.ceil(live * POST_METRIC_TOLERANCE))`. -/
def metric_tol (live : ℕ) : ℕ :=
  if live = 0 then 1 else max 1 ⌈(live : ℚ) * POST_METRIC_TOLERANCE⌉₊

/-- Embeds `metric_inflated` (src/utils/validation.py lines 72-85):
`miner > live + metric_tol(live)`. -/
def metric_inflated (miner live : ℕ) : Bool :=
  decide (live + metric_tol live < miner)

/-! ## src/utils/block.py : block clock -/

/-- State of the block clock cache: `_block_cache` and `_block_cache_time`
(src/utils/block.py lines 18-19), initially `None` and `0`. -/
structure BlockClockState where
  cache : Option ℤ
  cacheTime : ℚ
deriving DecidableEq, Repr

/-- Python `int()` applied to a rational: truncation toward zero. -/
def py_int (q : ℚ) : ℤ := if 0 ≤ q then ⌊q⌋ else ⌈q⌉

/-- Embeds `get_current_block` (src/utils/block.py lines 23-78) as a pure
function of the cache state, the wall clock and the oracle outcome
(`oracle = none` models a chain query that raises).  The function is total:
every path returns a block number, so the operation never raises.
Matching the source: a cached value younger than 12 seconds is returned
directly (`_block_cache_time = 0` counts as no timestamp, since Python
treats `0` as falsy giving an infinite age); otherwise the oracle is
queried and its answer cached; on oracle failure a stale cached value is
returned if present, else the estimate `int(time.time() / 12)` is computed,
cached and returned. -/
def get_current_block (st : BlockClockState) (now : ℚ) (oracle : Option ℤ) :
    ℤ × BlockClockState :=
  match st.cache with
  | some v =>
    if st.cacheTime ≠ 0 ∧ now - st.cacheTime < 12 then (v, st)
    else
      match oracle with
      | some b => (b, ⟨some b, now⟩)
      | none => (v, st)
  | none =>
    match oracle with
    | some b => (b, ⟨some b, now⟩)
    | none =>
      let est := py_int (now / 12)
      (est, ⟨some est, now⟩)

/-- Wall-clock estimate as the specification words it: floor of the current
time divided by the configured seconds-per-block period (SECONDS_PER_BLOCK,
src/database.py line 78).  Written from the spec so it can be compared with
the estimate the code computes, which divides by the literal 12. -/
def spec_wall_clock_estimate (secondsPerBlock now : ℚ) : ℤ :=
  ⌊now / secondsPerBlock⌋

/-! ## Data model (src/database.py `init_database`, lines 181-329) -/

/-- Row of the `submissions` table (src/database.py lines 190-216, plus the
`window_id` column added at lines 270-276).  The canonical `tokens_json`
text (`json.dumps(..., sort_keys=True)`) is modelled by the key-sorted
association list it serialises. -/
structure Submission where
  miner_hotkey : String
  post_id : String
  content : String
  date : ℤ
  author : String
  account_age : ℤ
  retweets : ℤ
  likes : ℤ
  responses : ℤ
  followers : ℤ
  tokens_json : List (String × ℚ)
  sentiment : ℚ
  score : ℚ
  accepted_at : ℤ
  accepted_block : ℕ
  selected_for_validation : Bool
  validation_id : Option ℕ
  x_validated : Bool
  x_validation_result : Option Bool
  x_validated_at : Option ℤ
  x_validation_error : Option String
  post_url : Option String
  window_id : Option ℕ
deriving DecidableEq, Repr

/-- Row of the `validator_assignments` table (src/database.py lines
245-253); `validation_id` is the primary key. -/
structure ValidatorAssignment where
  validation_id : ℕ
  validator_hotkey : String
  assigned_at : ℤ
  completed_at : Option ℤ
deriving DecidableEq, Repr

/-- Row of the `validation_results` table (src/database.py lines 257-267);
`validation_id` is the primary key. -/
structure ValidationResult where
  validation_id : ℕ
  validator_hotkey : String
  miner_hotkey : String
  post_id : String
  success : Bool
  failure_reason : Option String
  validated_at : ℤ
deriving DecidableEq, Repr

/-- Row of the `windows` table (src/database.py lines 279-292);
`window_start_block` is UNIQUE, `id` is the BIGSERIAL surrogate key. -/
structure WindowRow where
  id : ℕ
  window_start_block : ℕ
  window_end_block : ℕ
  blocks_per_window : ℕ
  start_time : Option ℤ
  end_time : Option ℤ
  calculated_at : ℤ
  submissions_count : ℕ
  distinct_miners_count : ℕ
  status : String
deriving DecidableEq, Repr

/-- Row of the `miner_window_scores` table (src/database.py lines 296-308);
`(window_id, miner_hotkey)` is UNIQUE.  The BIGSERIAL surrogate `id` plays
no role in any operation and is omitted. -/
structure MinerWindowScore where
  window_id : ℕ
  miner_hotkey : String
  submissions_count : ℕ
  raw_avg_score : ℚ
  final_score : ℚ
  had_validator_failure : Bool
  had_x_failure : Bool
deriving DecidableEq, Repr

/-- Contents of the memoized scores state file `scores_state.json`
(src/database.py lines 364-383 and 985-992). -/
structure ScoresFileState where
  window_start : ℤ
  window_end : ℤ
  blocks_per_window : ℕ
  calculated_at : ℤ
  calculated_at_block : ℕ
  scores : List (String × ℚ)
deriving DecidableEq, Repr

/-- Whole persistent state: the five relational tables plus the memoized
scores file, together with the fresh-identifier counters that model
`uuid.uuid4()` and the `windows.id` BIGSERIAL sequence. -/
structure State where
  submissions : List Submission
  validator_assignments : List ValidatorAssignment
  validation_results : List ValidationResult
  windows : List WindowRow
  miner_window_scores : List MinerWindowScore
  scores_file : Option ScoresFileState
  nextUuid : ℕ
  nextWindowRowId : ℕ
deriving DecidableEq, Repr

/-- Empty database, no scores file: the state right after `init_database`
on a fresh install. -/
def initState : State :=
  { submissions := [], validator_assignments := [], validation_results := [],
    windows := [], miner_window_scores := [], scores_file := none,
    nextUuid := 0, nextWindowRowId := 1 }

/-! ## src/database.py : submission intake -/

/-- Embeds `generate_post_url` (src/database.py lines 173-178). -/
def generate_post_url (author post_id : String) : String :=
  "https://x.com/" ++ author ++ "/status/" ++ post_id

/-- Incoming post submission (the fields of `models.PostSubmission` that
`insert_submission` persists). -/
structure Post where
  miner_hotkey : String
  post_id : String
  content : String
  date : ℤ
  author : String
  account_age : ℤ
  retweets : ℤ
  likes : ℤ
  responses : ℤ
  followers : ℤ
  tokens : List (String × ℚ)
  sentiment : ℚ
  score : ℚ
deriving DecidableEq, Repr

/-- Canonical tokens serialisation: `json.dumps(post.tokens,
sort_keys=True, ...)` (src/database.py line 627), modelled as sorting the
mapping by key. -/
def canonical_tokens (t : List (String × ℚ)) : List (String × ℚ) :=
  t.mergeSort (fun a b => decide (a.1 ≤ b.1))

/-- Structured rate-limit window metadata (src/database.py lines 609-620). -/
structure RateLimitInfo where
  current_count : ℕ
  max_submissions : ℕ
  current_block : ℕ
  window_start_block : ℕ
  window_end_block : ℕ
  next_window_start_block : ℕ
  blocks_until_reset : ℕ
  estimated_seconds_until_reset : ℚ
  blocks_per_window : ℕ
  current_window : ℕ
deriving DecidableEq, Repr

/-- Builds the rate-limit info dict exactly as src/database.py lines
605-620 does for a rate-limited submission. -/
def mkRateLimitInfo (cfg : Config) (count : ℕ) (current_block : ℕ) : RateLimitInfo :=
  let window_start := blockWindowStart cfg current_block
  let window_end := blockWindowEnd cfg current_block
  let next_window_start := window_start + cfg.blocksPerWindow
  let blocks_until_reset := next_window_start - current_block
  { current_count := count,
    max_submissions := cfg.maxSubmissionRate,
    current_block := current_block,
    window_start_block := window_start,
    window_end_block := window_end,
    next_window_start_block := next_window_start,
    blocks_until_reset := blocks_until_reset,
    estimated_seconds_until_reset := (blocks_until_reset : ℚ) * cfg.secondsPerBlock,
    blocks_per_window := cfg.blocksPerWindow,
    current_window := current_block / cfg.blocksPerWindow }

/-- Return value of `insert_submission` (the log message string is
elided). -/
structure InsertResult where
  is_new : Bool
  error_code : Option String
  rate_limit_info : Option RateLimitInfo
deriving DecidableEq, Repr

/-- Number of submissions by `miner` with `accepted_block >= window_start`
(the rate-limit count query, src/database.py lines 596-602). -/
def countSubmissionsSince (st : State) (miner : String) (window_start : ℕ) : ℕ :=
  (st.submissions.filter fun s =>
    decide (s.miner_hotkey = miner ∧ window_start ≤ s.accepted_block)).length

/-- The row `insert_submission` inserts (src/database.py lines 629-639):
all post fields, `accepted_at = now`, `accepted_block = current_block`, a
derived `post_url`, and every promotion column at its default. -/
def newSubmissionRow (post : Post) (now : ℤ) (current_block : ℕ) : Submission :=
  { miner_hotkey := post.miner_hotkey, post_id := post.post_id,
    content := post.content, date := post.date, author := post.author,
    account_age := post.account_age, retweets := post.retweets,
    likes := post.likes, responses := post.responses,
    followers := post.followers, tokens_json := canonical_tokens post.tokens,
    sentiment := post.sentiment, score := post.score, accepted_at := now,
    accepted_block := current_block, selected_for_validation := false,
    validation_id := none, x_validated := false, x_validation_result := none,
    x_validated_at := none, x_validation_error := none,
    post_url := some (generate_post_url post.author post.post_id),
    window_id := none }

/-- Embeds `insert_submission` (src/database.py lines 562-653).  In order:
the duplicate check on `(miner_hotkey, post_id)`, then the block-window
rate-limit check, then the INSERT.  `current_block` is the value
`get_current_block()` returned at the top of the function. -/
def insert_submission (cfg : Config) (post : Post) (now : ℤ) (current_block : ℕ)
    (st : State) : InsertResult × State :=
  if st.submissions.any (fun s =>
      decide (s.miner_hotkey = post.miner_hotkey ∧ s.post_id = post.post_id)) then
    ({ is_new := false, error_code := none, rate_limit_info := none }, st)
  else
    let window_start := blockWindowStart cfg current_block
    let count := countSubmissionsSince st post.miner_hotkey window_start
    if cfg.maxSubmissionRate ≤ count then
      ({ is_new := false, error_code := some "limit_exceeded",
         rate_limit_info := some (mkRateLimitInfo cfg count current_block) }, st)
    else
      ({ is_new := true, error_code := none, rate_limit_info := none },
       { st with submissions :=
          st.submissions ++ [newSubmissionRow post now current_block] })

/-! ## src/database.py : window scoring -/

/-- Per-miner entry of the detailed window-score computation
(src/database.py lines 411-420). -/
structure MinerData where
  submissions_count : ℕ
  raw_avg_score : ℚ
  final_score : ℚ
  had_validator_failure : Bool
  had_x_failure : Bool
deriving DecidableEq, Repr

/-- Submissions with `accepted_block` in `[ws, we]` (the window range
predicate used by every query of `_calculate_window_scores_detailed`). -/
def windowSubmissions (st : State) (ws we : ℕ) : List Submission :=
  st.submissions.filter fun s => decide (ws ≤ s.accepted_block ∧ s.accepted_block ≤ we)

/-- The given miner's submissions inside the window: one `GROUP BY` group
of the average-score query (src/database.py lines 404-409). -/
def minerWindowSubmissions (st : State) (ws we : ℕ) (m : String) : List Submission :=
  (windowSubmissions st ws we).filter fun s => decide (s.miner_hotkey = m)

/-- Distinct miners with at least one submission in the window: the keys
of the `GROUP BY miner_hotkey` result. -/
def windowMiners (st : State) (ws we : ℕ) : List String :=
  ((windowSubmissions st ws we).map (fun s => s.miner_hotkey)).dedup

/-- SQL `AVG` over a list of values (`NULL`-free case: the caller only
uses it on nonempty groups). -/
def listAvg (l : List ℚ) : ℚ := l.sum / l.length

/-- Membership of `m` in the validator-failure set (src/database.py lines
423-431): some `validation_results` row with `success = 0` and
`miner_hotkey = m` joins on `validation_id` to a submission accepted in
the window. -/
def hadValidatorFailure (st : State) (ws we : ℕ) (m : String) : Bool :=
  st.validation_results.any fun vr =>
    decide (vr.success = false ∧ vr.miner_hotkey = m) &&
    st.submissions.any fun s =>
      decide (s.validation_id = some vr.validation_id ∧
        ws ≤ s.accepted_block ∧ s.accepted_block ≤ we)

/-- Membership of `m` in the X-failure set (src/database.py lines
434-442): some submission of `m` in the window with `x_validated = 1` and
`x_validation_result = 0`. -/
def hadXFailure (st : State) (ws we : ℕ) (m : String) : Bool :=
  st.submissions.any fun s =>
    decide (s.miner_hotkey = m ∧ ws ≤ s.accepted_block ∧ s.accepted_block ≤ we ∧
      s.x_validated = true ∧ s.x_validation_result = some false)

/-- Per-miner data computed by `_calculate_window_scores_detailed`
(src/database.py lines 411-455): raw average and count over the miner's
group, then `final_score` zeroed when the miner belongs to either failure
set. -/
def minerData (st : State) (ws we : ℕ) (m : String) : MinerData :=
  let subs := minerWindowSubmissions st ws we m
  let avg := listAvg (subs.map (fun s => s.score))
  let vf := hadValidatorFailure st ws we m
  let xf := hadXFailure st ws we m
  { submissions_count := subs.length, raw_avg_score := avg,
    final_score := if vf || xf then 0 else avg,
    had_validator_failure := vf, had_x_failure := xf }

/-- Result of `_calculate_window_scores_detailed` (src/database.py lines
386-485): the per-miner table, the global stats (lines 458-473) and the
backward-compatible `scores` mapping (line 476). -/
structure DetailedScores where
  per_miner : List (String × MinerData)
  submissions_count : ℕ
  distinct_miners_count : ℕ
  start_time : Option ℤ
  end_time : Option ℤ
  scores : List (String × ℚ)
deriving DecidableEq, Repr

/-- Embeds `_calculate_window_scores_detailed` (src/database.py lines
386-485). -/
def calculate_window_scores_detailed (st : State) (ws we : ℕ) : DetailedScores :=
  let wsubs := windowSubmissions st ws we
  let miners := windowMiners st ws we
  let per_miner := miners.map (fun m => (m, minerData st ws we m))
  { per_miner := per_miner,
    submissions_count := wsubs.length,
    distinct_miners_count := miners.length,
    start_time := (wsubs.map (fun s => s.accepted_at)).min?,
    end_time := (wsubs.map (fun s => s.accepted_at)).max?,
    scores := per_miner.map (fun p => (p.1, p.2.final_score)) }

/-- One `ON CONFLICT (window_id, miner_hotkey) DO UPDATE` upsert into
`miner_window_scores` (src/database.py lines 890-908). -/
def upsertMinerWindowScore (wid : ℕ) (m : String) (d : MinerData)
    (l : List MinerWindowScore) : List MinerWindowScore :=
  if l.any (fun r => decide (r.window_id = wid ∧ r.miner_hotkey = m)) then
    l.map fun r =>
      if r.window_id = wid ∧ r.miner_hotkey = m then
        { r with submissions_count := d.submissions_count,
                 raw_avg_score := d.raw_avg_score, final_score := d.final_score,
                 had_validator_failure := d.had_validator_failure,
                 had_x_failure := d.had_x_failure }
      else r
  else
    l ++ [{ window_id := wid, miner_hotkey := m,
            submissions_count := d.submissions_count,
            raw_avg_score := d.raw_avg_score, final_score := d.final_score,
            had_validator_failure := d.had_validator_failure,
            had_x_failure := d.had_x_failure }]

/-- Embeds `_persist_window_scores` (src/database.py lines 844-928):
upsert the `windows` row keyed by `window_start_block` (the `DO UPDATE`
only refreshes `end_time`, `calculated_at` and the two counters), upsert
one `miner_window_scores` row per miner, and backfill
`submissions.window_id` for in-range rows still null. -/
def persist_window_scores (cfg : Config) (ws we : ℕ) (d : DetailedScores)
    (now : ℤ) (st : State) : State :=
  let found := st.windows.find? (fun w => decide (w.window_start_block = ws))
  let wid := match found with
    | some w => w.id
    | none => st.nextWindowRowId
  let windows1 := match found with
    | some _ => st.windows.map (fun w2 =>
        if w2.window_start_block = ws then
          { w2 with end_time := d.end_time, calculated_at := now,
                    submissions_count := d.submissions_count,
                    distinct_miners_count := d.distinct_miners_count }
        else w2)
    | none => st.windows ++
        [{ id := st.nextWindowRowId, window_start_block := ws,
           window_end_block := we, blocks_per_window := cfg.blocksPerWindow,
           start_time := d.start_time, end_time := d.end_time,
           calculated_at := now, submissions_count := d.submissions_count,
           distinct_miners_count := d.distinct_miners_count,
           status := "finalized" }]
  let nextId1 := match found with
    | some _ => st.nextWindowRowId
    | none => st.nextWindowRowId + 1
  let mws := d.per_miner.foldl (fun acc p => upsertMinerWindowScore wid p.1 p.2 acc)
               st.miner_window_scores
  let subs := st.submissions.map fun s =>
    if ws ≤ s.accepted_block ∧ s.accepted_block ≤ we ∧ s.window_id = none then
      { s with window_id := some wid }
    else s
  { st with windows := windows1, miner_window_scores := mws,
            submissions := subs, nextWindowRowId := nextId1 }

/-- Result of `get_all_hotkey_scores_last_block_window`, extended with the
post-state and a ghost flag recording whether the window scores were
recomputed from the database (the non-cached path). -/
structure ScoresReadResult where
  scores : List (String × ℚ)
  window_end_block : ℤ
  state : State
  recomputed : Bool
deriving DecidableEq, Repr

/-- The non-cached path of `get_all_hotkey_scores_last_block_window`
(src/database.py lines 976-997): compute the detailed scores, persist the
window tables, and atomically replace the scores state file. -/
def recompute_previous_window (cfg : Config) (current_block pws pwe : ℕ)
    (now : ℤ) (st : State) : ScoresReadResult :=
  let d := calculate_window_scores_detailed st pws pwe
  let st1 := persist_window_scores cfg pws pwe d now st
  let f : ScoresFileState :=
    { window_start := (pws : ℤ), window_end := (pwe : ℤ),
      blocks_per_window := cfg.blocksPerWindow, calculated_at := now,
      calculated_at_block := current_block, scores := d.scores }
  { scores := d.scores, window_end_block := (pwe : ℤ),
    state := { st1 with scores_file := some f }, recomputed := true }

/-- Embeds `get_all_hotkey_scores_last_block_window` (src/database.py
lines 937-997): compute the previous window bounds from the current block;
return empty when still in the first window; return the memoized file's
mapping when it records exactly the previous-window bounds; otherwise
recompute, persist and memoize. -/
def get_all_hotkey_scores_last_block_window (cfg : Config) (current_block : ℕ)
    (now : ℤ) (st : State) : ScoresReadResult :=
  let cws := blockWindowStart cfg current_block
  let pws : ℤ := (cws : ℤ) - (cfg.blocksPerWindow : ℤ)
  let pwe : ℤ := (cws : ℤ) - 1
  if pws < 0 then
    { scores := [], window_end_block := (current_block : ℤ), state := st,
      recomputed := false }
  else
    match st.scores_file with
    | some f =>
      if f.window_start = pws ∧ f.window_end = pwe then
        { scores := f.scores, window_end_block := pwe, state := st,
          recomputed := false }
      else recompute_previous_window cfg current_block pws.toNat pwe.toNat now st
    | none => recompute_previous_window cfg current_block pws.toNat pwe.toNat now st

/-! ## src/database.py : validation promoter -/

/-- The UPDATE marking a post as X-validated with a passing result
(src/database.py lines 771-775). -/
def markXPassed (miner post_id : String) (now : ℤ) (subs : List Submission) :
    List Submission :=
  subs.map fun s =>
    if s.miner_hotkey = miner ∧ s.post_id = post_id then
      { s with x_validated := true, x_validation_result := some true,
               x_validated_at := some now, x_validation_error := none }
    else s

/-- The UPDATE marking a post as X-validated with a failing result and the
stored error payload (src/database.py lines 782-786). -/
def markXFailed (miner post_id : String) (now : ℤ) (err : Option String)
    (subs : List Submission) : List Submission :=
  subs.map fun s =>
    if s.miner_hotkey = miner ∧ s.post_id = post_id then
      { s with x_validated := true, x_validation_result := some false,
               x_validated_at := some now, x_validation_error := err }
    else s

/-- The conditional UPDATE that marks a post selected with its freshly
minted validation id, guarded by `selected_for_validation = 0`
(src/database.py lines 817-821). -/
def casSelect (miner post_id : String) (vid : ℕ) (subs : List Submission) :
    List Submission :=
  subs.map fun s =>
    if s.miner_hotkey = miner ∧ s.post_id = post_id ∧
        s.selected_for_validation = false then
      { s with selected_for_validation := true, validation_id := some vid }
    else s

/-- Number of rows the conditional UPDATE affects (`cursor.rowcount`,
src/database.py line 824). -/
def casRowcount (miner post_id : String) (subs : List Submission) : ℕ :=
  (subs.filter fun s => decide (s.miner_hotkey = miner ∧ s.post_id = post_id ∧
    s.selected_for_validation = false)).length

/-- Third critical section of `select_post_for_validation`
(src/database.py lines 796-841): re-read the row; if it is already
selected with an id, return the winner's id; otherwise run the guarded
UPDATE and, when its rowcount is 0, fall back to re-reading the winner's
id (returning failure when there is none). -/
def select_post_mark_selected (miner post_id : String) (vid : ℕ) (st : State) :
    (Bool × Option ℕ × Option String) × State :=
  match st.submissions.find? (fun s =>
      decide (s.miner_hotkey = miner ∧ s.post_id = post_id)) with
  | none => ((false, none, none), st)
  | some row =>
    if row.selected_for_validation = true ∧ row.validation_id.isSome = true then
      ((true, row.validation_id, none), st)
    else
      if casRowcount miner post_id st.submissions = 0 then
        if row.validation_id.isSome = true then ((true, row.validation_id, none), st)
        else ((false, none, none), st)
      else
        ((true, some vid, none),
         { st with submissions := casSelect miner post_id vid st.submissions })

/-- Outcome storage of the second critical section (src/database.py lines
765-789): on a passing verification, mint the validation id
(`uuid.uuid4()`, line 768, modelled by the `nextUuid` counter), store the
passing X-validation flags and continue to the selection phase; on a
failing verification, store the failing flags and error and return. -/
def select_post_store_outcome (miner post_id : String) (is_valid : Bool)
    (error_dict : Option String) (now : ℤ) (st : State) :
    (Bool × Option ℕ × Option String) × State :=
  if is_valid then
    let vid := st.nextUuid
    let st1 := { st with submissions := markXPassed miner post_id now st.submissions,
                         nextUuid := st.nextUuid + 1 }
    select_post_mark_selected miner post_id vid st1
  else
    ((true, none, error_dict),
     { st with submissions := markXFailed miner post_id now error_dict st.submissions })

/-- Second critical section of `select_post_for_validation`
(src/database.py lines 741-792): re-check whether a peer already processed
the row (the two early-return sub-cases of lines 755-763), otherwise store
the verifier outcome. -/
def select_post_validate_and_store (miner post_id : String) (is_valid : Bool)
    (error_dict : Option String) (now : ℤ) (st : State) :
    (Bool × Option ℕ × Option String) × State :=
  match st.submissions.find? (fun s =>
      decide (s.miner_hotkey = miner ∧ s.post_id = post_id)) with
  | none => select_post_store_outcome miner post_id is_valid error_dict now st
  | some row =>
    if row.selected_for_validation = true ∧ row.x_validated = true ∧
        row.x_validation_result = some true then
      ((true, row.validation_id, none), st)
    else if row.selected_for_validation = true ∧ row.x_validated = true ∧
        row.x_validation_result = some false then
      ((true, none, none), st)
    else select_post_store_outcome miner post_id is_valid error_dict now st

/-- Embeds `select_post_for_validation` (src/database.py lines 670-841) as
one atomic step (see the header for why this is sound in this repository).
`coinSelected` models `random.random() < validation_probability`
(line 715) and `is_valid`, `error_dict` model the external verifier's
verdict (line 735).  The initial read (lines 691-712) returns the existing
outcome when the row is already selected; otherwise, an unselected coin
returns `(false, none, none)`, and a selected coin proceeds to
verification and storage. -/
def select_post_for_validation (miner post_id : String)
    (coinSelected is_valid : Bool) (error_dict : Option String) (now : ℤ)
    (st : State) : (Bool × Option ℕ × Option String) × State :=
  match st.submissions.find? (fun s =>
      decide (s.miner_hotkey = miner ∧ s.post_id = post_id)) with
  | some row =>
    if row.selected_for_validation = true then
      if row.x_validated = true ∧ row.x_validation_result = some true then
        ((true, row.validation_id, none), st)
      else
        ((true, none, none), st)
    else
      if coinSelected = false then ((false, none, none), st)
      else select_post_validate_and_store miner post_id is_valid error_dict now st
  | none =>
    if coinSelected = false then ((false, none, none), st)
    else select_post_validate_and_store miner post_id is_valid error_dict now st

/-! ## src/database.py : task dispatcher -/

/-- Payload handed to a validator (src/database.py lines 1073-1096); the
`post` dict is a projection of the submission row and is modelled by the
row itself. -/
structure ValidationPayload where
  validation_id : ℕ
  miner_hotkey : String
  post : Submission
  selected_at : ℤ
deriving DecidableEq, Repr

/-- All validation ids present in the assignments table. -/
def assignedIds (st : State) : List ℕ :=
  st.validator_assignments.map (fun a => a.validation_id)

/-- Rows matched by the dispatch SELECT (src/database.py lines 1026-1041):
promoted submissions with a validation id and no assignment row, ordered
by `accepted_at ASC`, limited to VALIDATIONS_PER_REQUEST. -/
def pendingRows (cfg : Config) (st : State) : List Submission :=
  ((st.submissions.filter fun s =>
      decide (s.selected_for_validation = true) && decide (s.x_validated = true) &&
      decide (s.x_validation_result = some true) && s.validation_id.isSome &&
      !((assignedIds st).any (fun v => decide (s.validation_id = some v)))).mergeSort
    (fun a b => decide (a.accepted_at ≤ b.accepted_at))).take cfg.validationsPerRequest

/-- The `ON CONFLICT (validation_id) DO NOTHING ... RETURNING` insert loop
(src/database.py lines 1052-1063): fold over the locked rows, inserting an
assignment whenever the validation id is still free and collecting the ids
actually inserted.  (Every row carries an id — the SELECT requires
`validation_id IS NOT NULL` — so the `none` branch is vacuous.) -/
def assignLoop (validator : String) (now : ℤ) (rows : List Submission)
    (assigns : List ValidatorAssignment) (acc : List ℕ) :
    List ValidatorAssignment × List ℕ :=
  match rows with
  | [] => (assigns, acc)
  | r :: rest =>
    match r.validation_id with
    | none => assignLoop validator now rest assigns acc
    | some vid =>
      if (assigns.map (fun a => a.validation_id)).contains vid then
        assignLoop validator now rest assigns acc
      else
        assignLoop validator now rest
          (assigns ++ [{ validation_id := vid, validator_hotkey := validator,
                         assigned_at := now, completed_at := none }])
          (acc ++ [vid])

/-- Embeds `get_pending_validations` (src/database.py lines 1000-1103):
select-and-lock the pending rows, insert assignments with conflict
absorption, commit, and return payloads only for the ids this very call
inserted.  (`getD 0` is never exercised: every returned row carries an
id.) -/
def get_pending_validations (cfg : Config) (validator_hotkey : String)
    (now : ℤ) (st : State) : List ValidationPayload × State :=
  let rows := pendingRows cfg st
  if rows.isEmpty then ([], st)
  else
    let folded := assignLoop validator_hotkey now rows st.validator_assignments []
    let st1 := { st with validator_assignments := folded.1 }
    let filtered := rows.filter fun r =>
      match r.validation_id with
      | some vid => folded.2.contains vid
      | none => false
    if filtered.isEmpty then ([], st1)
    else
      (filtered.map (fun r =>
        { validation_id := r.validation_id.getD 0, miner_hotkey := r.miner_hotkey,
          post := r, selected_at := r.accepted_at }), st1)

/-! ## src/database.py : outcome recorder -/

/-- Embeds `record_validation_result` (src/database.py lines 1106-1202):
look up the submission by `(validation_id, miner_hotkey)` (reject when
missing), verify the assignment for `(validation_id, validator_hotkey)`
(reject when missing), upsert the result row keyed by `validation_id`
(the UPDATE overwrites validator, success, failure_reason and
validated_at; miner_hotkey and post_id keep their stored values), and set
the assignment's `completed_at`. -/
def record_validation_result (validator_hotkey : String) (vid : ℕ)
    (miner_hotkey : String) (success : Bool) (failure_reason : Option String)
    (now : ℤ) (st : State) : Bool × State :=
  match st.submissions.find? (fun s =>
      decide (s.validation_id = some vid ∧ s.miner_hotkey = miner_hotkey)) with
  | none => (false, st)
  | some sub =>
    if st.validator_assignments.any (fun a =>
        decide (a.validation_id = vid ∧ a.validator_hotkey = validator_hotkey)) then
      let results1 :=
        if st.validation_results.any (fun r => decide (r.validation_id = vid)) then
          st.validation_results.map fun r =>
            if r.validation_id = vid then
              { r with validator_hotkey := validator_hotkey, success := success,
                       failure_reason := failure_reason, validated_at := now }
            else r
        else
          st.validation_results ++
            [{ validation_id := vid, validator_hotkey := validator_hotkey,
               miner_hotkey := miner_hotkey, post_id := sub.post_id,
               success := success, failure_reason := failure_reason,
               validated_at := now }]
      let assigns1 := st.validator_assignments.map fun a =>
        if a.validation_id = vid ∧ a.validator_hotkey = validator_hotkey then
          { a with completed_at := some now }
        else a
      (true, { st with validation_results := results1,
                       validator_assignments := assigns1 })
    else (false, st)

/-! ## Example data used by witnesses and counterexamples -/

/-- Submission row with the given identity, score and block; all other
fields are defaults matching a freshly inserted row. -/
def sampleSubmission (miner post_id : String) (score : ℚ) (block : ℕ) : Submission :=
  { miner_hotkey := miner, post_id := post_id, content := "hello", date := 0,
    author := "auth", account_age := 10, retweets := 0, likes := 0,
    responses := 0, followers := 0, tokens_json := [("tao", 1)],
    sentiment := 0, score := score, accepted_at := 0, accepted_block := block,
    selected_for_validation := false, validation_id := none,
    x_validated := false, x_validation_result := none, x_validated_at := none,
    x_validation_error := none, post_url := none, window_id := none }

/-- Sample incoming post for a given miner and post id. -/
def samplePost (miner post_id : String) : Post :=
  { miner_hotkey := miner, post_id := post_id, content := "hello", date := 0,
    author := "auth", account_age := 10, retweets := 0, likes := 0,
    responses := 0, followers := 0, tokens := [("tao", 1)], sentiment := 0,
    score := 1 / 2 }

/-- Configuration with MAX_SUBMISSION_RATE = 1 (and the other defaults),
used to exercise the rate-limit boundary with a single prior submission. -/
def cfgRate1 : Config := ⟨1, 5, 100, 12, by norm_num, by norm_num, by norm_num, by norm_num⟩

/-- State holding exactly one submission by miner m1 at block 150. -/
def stOneSub : State :=
  { initState with submissions := [sampleSubmission "m1" "p1" (1 / 2) 150] }

/-- State holding one submission by m1 with score 0 inside window [0, 99],
with no validation failure of any kind. -/
def stZeroScore : State :=
  { initState with submissions := [sampleSubmission "m1" "p1" 0 50] }

/-- State holding one submission by m1 inside window [0, 99] that failed X
validation. -/
def stXFail : State :=
  { initState with submissions :=
      [{ sampleSubmission "m1" "p1" (1 / 2) 50 with
          x_validated := true, x_validation_result := some false }] }

/-- Memoized scores file recording window [0, 99] under the default
configuration. -/
def sampleScoresFile : ScoresFileState :=
  { window_start := 0, window_end := 99, blocks_per_window := 100,
    calculated_at := 3, calculated_at_block := 120, scores := [("m1", 1 / 2)] }

/-- State whose scores file memoizes window [0, 99]. -/
def stCached : State := { initState with scores_file := some sampleScoresFile }

/-- Promoted submission of miner m1 carrying validation id 1. -/
def promotedSubmission : Submission :=
  { sampleSubmission "m1" "p1" 1 50 with
    selected_for_validation := true, x_validated := true,
    x_validation_result := some true, validation_id := some 1 }

/-- Assignment of validation id 1 to validator v1, not yet completed. -/
def assignmentOne : ValidatorAssignment :=
  { validation_id := 1, validator_hotkey := "v1", assigned_at := 3,
    completed_at := none }

/-- State with a promoted submission of miner m1 carrying validation id 1,
assigned to validator v1 and not yet judged. -/
def stAssigned : State :=
  { initState with
      submissions := [promotedSubmission],
      validator_assignments := [assignmentOne],
      nextUuid := 2 }

/-- State with one promoted, not yet assigned submission (validation id 1
pending dispatch). -/
def stPromoted : State :=
  { initState with submissions := [promotedSubmission], nextUuid := 2 }

/-! ## Operational semantics: reachable database states -/

/-- One observable operation of the coordinator, as an atomic state
transition with arbitrary caller input, clock reading, coin flip and
verifier verdict. -/
inductive Step : State → State → Prop
  | insert (cfg : Config) (post : Post) (now : ℤ) (b : ℕ) (st : State) :
      Step st (insert_submission cfg post now b st).2
  | promote (miner post_id : String) (coin valid : Bool) (err : Option String)
      (now : ℤ) (st : State) :
      Step st (select_post_for_validation miner post_id coin valid err now st).2
  | claim (cfg : Config) (validator : String) (now : ℤ) (st : State) :
      Step st (get_pending_validations cfg validator now st).2
  | record (validator : String) (vid : ℕ) (miner : String) (success : Bool)
      (fr : Option String) (now : ℤ) (st : State) :
      Step st (record_validation_result validator vid miner success fr now st).2
  | scores (cfg : Config) (b : ℕ) (now : ℤ) (st : State) :
      Step st (get_all_hotkey_scores_last_block_window cfg b now st).state

/-- States reachable from a fresh install by any sequence of operations. -/
def Reachable (st : State) : Prop := Relation.ReflTransGen Step initState st

/-- The `(miner_hotkey, post_id)` PRIMARY KEY of the submissions table: no
two rows share the pair. -/
def SubmissionKeysDistinct (st : State) : Prop :=
  st.submissions.Pairwise fun s1 s2 =>
    ¬(s1.miner_hotkey = s2.miner_hotkey ∧ s1.post_id = s2.post_id)

/-- A submission's validation_id is non-null exactly when the row is
selected for validation with a passing X-validation result. -/
def VidIffPromoted (st : State) : Prop :=
  ∀ s ∈ st.submissions,
    (s.validation_id ≠ none ↔
      (s.selected_for_validation = true ∧ s.x_validation_result = some true))

/-- Non-null validation ids are globally unique across submissions (the
UNIQUE constraint of src/database.py line 234). -/
def VidsUnique (st : State) : Prop :=
  st.submissions.Pairwise fun s1 s2 =>
    ∀ v, s1.validation_id = some v → s2.validation_id ≠ some v

/-- Every stored validation id was minted by the uuid counter. -/
def VidsBounded (st : State) : Prop :=
  ∀ s ∈ st.submissions, ∀ v, s.validation_id = some v → v < st.nextUuid

/-- Inductive invariant carried through every operation. -/
def StateInv (st : State) : Prop :=
  SubmissionKeysDistinct st ∧ VidIffPromoted st ∧ VidsUnique st ∧ VidsBounded st

/-! # Lemmas and claim theorems -/

theorem blockWindowStart_le (cfg : Config) (block : ℕ) :
    blockWindowStart cfg block ≤ block :=
  Nat.div_mul_le_self block cfg.blocksPerWindow

theorem lt_blockWindowStart_add (cfg : Config) (block : ℕ) :
    block < blockWindowStart cfg block + cfg.blocksPerWindow := by
  unfold blockWindowStart
  conv_lhs => rw [← Nat.div_add_mod' block cfg.blocksPerWindow]
  exact Nat.add_lt_add_left (Nat.mod_lt block cfg.blocksPerWindow_pos) _

theorem metric_tol_of_pos {live : ℕ} (h : 1 ≤ live) :
    metric_tol live = ⌈(live : ℚ) * POST_METRIC_TOLERANCE⌉₊ := by
  have hne : live ≠ 0 := Nat.one_le_iff_ne_zero.mp h
  have hpos : (0 : ℚ) < (live : ℚ) * POST_METRIC_TOLERANCE := by
    have : (0 : ℚ) < (live : ℚ) := by exact_mod_cast Nat.pos_of_ne_zero hne
    have ht : (0 : ℚ) < POST_METRIC_TOLERANCE := by norm_num [POST_METRIC_TOLERANCE]
    exact mul_pos this ht
  have hceil : 1 ≤ ⌈(live : ℚ) * POST_METRIC_TOLERANCE⌉₊ :=
    Nat.one_le_iff_ne_zero.mpr (by
      have := Nat.ceil_pos.mpr hpos
      omega)
  simp [metric_tol, hne, Nat.max_eq_right hceil]

/-! ## Claim C7 -/

/-- Claim C7 (corrected): the engagement-metric check rejects exactly when
`miner > live + tolerance` with `tolerance = max(1, ⌈live/10⌉)` for
`live > 0` and `1` for `live = 0`; for every `live ≥ 1` the value
`live + ⌈live/10⌉` passes and `live + ⌈live/10⌉ + 1` fails; at `live = 0`
the boundary sits at the tolerance 1, so `1` passes and `2` fails; any
understated value passes.  (The original claim asserted the
`live + ⌈0.1·live⌉ + 1` boundary for every live value, which fails at
`live = 0` where the tolerance is 1 but `⌈0.1·live⌉ = 0`.) -/
theorem C7_metric_tolerance (miner live : ℕ) :
    (metric_inflated miner live = true ↔
      live + (if live = 0 then 1 else max 1 ⌈(live : ℚ) * (1 / 10)⌉₊) < miner)
    ∧ (1 ≤ live →
        metric_inflated (live + ⌈(live : ℚ) * (1 / 10)⌉₊) live = false
        ∧ metric_inflated (live + ⌈(live : ℚ) * (1 / 10)⌉₊ + 1) live = true)
    ∧ (metric_inflated 1 0 = false ∧ metric_inflated 2 0 = true)
    ∧ (miner ≤ live → metric_inflated miner live = false) := by
  refine ⟨?_, ?_, ?_, ?_⟩
  · simp only [metric_inflated, metric_tol, POST_METRIC_TOLERANCE, decide_eq_true_eq]
  · intro h
    have ht := metric_tol_of_pos h
    rw [POST_METRIC_TOLERANCE] at ht
    constructor
    · unfold metric_inflated
      rw [← ht]
      simp
    · unfold metric_inflated
      rw [← ht]
      simp
  · exact ⟨rfl, rfl⟩
  · intro h
    have h1 : 1 ≤ metric_tol live := by
      unfold metric_tol
      split <;> simp
    simp only [metric_inflated, decide_eq_false_iff_not, not_lt]
    omega

/-- Witness for C7: at `live = 10` the tolerance is `⌈10/10⌉ = 1`, so a
reported value of 11 passes and 12 fails. -/
theorem C7_metric_tolerance_witness :
    metric_inflated (10 + ⌈(10 : ℚ) * (1 / 10)⌉₊) 10 = false
    ∧ metric_inflated (10 + ⌈(10 : ℚ) * (1 / 10)⌉₊ + 1) 10 = true :=
  (C7_metric_tolerance 11 10).2.1 (by norm_num)

/-- Counterexample to C7 as frozen: at `live = 0`, the claim says
`miner = live + ⌈0.1·live⌉ + 1 = 1` must fail, but the code's tolerance is
1 there, so `metric_inflated 1 0` is `false` (the value passes). -/
theorem C7_counterexample_zero_live :
    metric_inflated (0 + ⌈(0 : ℚ) * (1 / 10)⌉₊ + 1) 0 = false := by
  have hc : ⌈(0 : ℚ) * (1 / 10)⌉₊ = 0 := by rw [zero_mul, Nat.ceil_zero]
  rw [hc]
  rfl

/-! ## Claim C9 -/

/-- Claim C9 (corrected): when the cache holds no value and the chain
oracle fails, `get_current_block` returns the wall-clock estimate
`int(now / 12)` computed with the literal 12-second period hard-coded in
src/utils/block.py line 75 — not with the configured SECONDS_PER_BLOCK —
and never raises (the embedding is a total function); when a cached value
exists, the cached value is returned instead on oracle failure.  (The
original claim said the estimate divides by the configured seconds-per-block
period; the code ignores SECONDS_PER_BLOCK here.) -/
theorem C9_block_clock_fallback (st : BlockClockState) (now : ℚ) :
    (st.cache = none → (get_current_block st now none).1 = py_int (now / 12))
    ∧ (∀ v, st.cache = some v → (get_current_block st now none).1 = v) := by
  constructor
  · intro h
    simp [get_current_block, h]
  · intro v h
    simp only [get_current_block, h]
    split <;> rfl

/-- Witness for C9: with an empty cache at wall-clock second 30 and a
failed oracle query, the returned block is `int(30/12) = 2`. -/
theorem C9_block_clock_fallback_witness :
    (get_current_block ⟨none, 0⟩ 30 none).1 = py_int (30 / 12) :=
  (C9_block_clock_fallback ⟨none, 0⟩ 30).1 rfl

/-- Counterexample to C9 as frozen: with SECONDS_PER_BLOCK configured to 6
and the wall clock at second 24, the estimate the claim specifies is
`⌊24/6⌋ = 4`, but the code (empty cache, failed oracle) returns
`int(24/12) = 2`. -/
theorem C9_counterexample_configured_period :
    (get_current_block ⟨none, 0⟩ 24 none).1 = 2
    ∧ spec_wall_clock_estimate 6 24 = 4
    ∧ (get_current_block ⟨none, 0⟩ 24 none).1 ≠ spec_wall_clock_estimate 6 24 := by
  have h24 : ((24 : ℚ) / 12) = ((2 : ℤ) : ℚ) := by norm_num
  have h6 : ((24 : ℚ) / 6) = ((4 : ℤ) : ℚ) := by norm_num
  have h1 : (get_current_block ⟨none, 0⟩ 24 none).1 = 2 := by
    show py_int ((24 : ℚ) / 12) = 2
    rw [py_int, h24, if_pos (by norm_num : (0 : ℚ) ≤ ((2 : ℤ) : ℚ)), Int.floor_intCast]
  have h2 : spec_wall_clock_estimate 6 24 = 4 := by
    rw [spec_wall_clock_estimate, h6, Int.floor_intCast]
  exact ⟨h1, h2, by rw [h1, h2]; decide⟩

theorem minerData_had_vf (st : State) (ws we : ℕ) (m : String) :
    (minerData st ws we m).had_validator_failure = hadValidatorFailure st ws we m := rfl

theorem minerData_had_xf (st : State) (ws we : ℕ) (m : String) :
    (minerData st ws we m).had_x_failure = hadXFailure st ws we m := rfl

theorem minerData_raw (st : State) (ws we : ℕ) (m : String) :
    (minerData st ws we m).raw_avg_score =
      listAvg ((minerWindowSubmissions st ws we m).map (fun s => s.score)) := rfl

theorem minerData_final (st : State) (ws we : ℕ) (m : String) :
    (minerData st ws we m).final_score =
      if hadValidatorFailure st ws we m || hadXFailure st ws we m then 0
      else listAvg ((minerWindowSubmissions st ws we m).map (fun s => s.score)) := rfl

/-! ## Claim C1 -/

/-- Claim C1 (corrected): for every window and every miner appearing in
the computed per-miner table, `had_validator_failure` and `had_x_failure`
hold exactly as the failure queries describe; either failure forces
`final_score = 0`; with no failure, `final_score` equals `raw_avg_score`,
the average of the miner's submission scores in the window; consequently
`final_score = 0` iff the miner had a failure **or its raw average is
itself 0**.  (The original claim stated `final_score = 0` iff a failure
occurred, which fails when an unfailed miner's scores average to 0.) -/
theorem C1_final_score_zeroing (st : State) (ws we : ℕ) (m : String) (d : MinerData)
    (hmem : (m, d) ∈ (calculate_window_scores_detailed st ws we).per_miner) :
    (d.had_validator_failure = true ↔
      ∃ vr ∈ st.validation_results, (vr.success = false ∧ vr.miner_hotkey = m) ∧
        ∃ s ∈ st.submissions, s.validation_id = some vr.validation_id ∧
          ws ≤ s.accepted_block ∧ s.accepted_block ≤ we)
    ∧ (d.had_x_failure = true ↔
      ∃ s ∈ st.submissions, s.miner_hotkey = m ∧ ws ≤ s.accepted_block ∧
        s.accepted_block ≤ we ∧ s.x_validated = true ∧ s.x_validation_result = some false)
    ∧ ((d.had_validator_failure = true ∨ d.had_x_failure = true) → d.final_score = 0)
    ∧ (d.had_validator_failure = false → d.had_x_failure = false →
        d.final_score = d.raw_avg_score)
    ∧ d.raw_avg_score =
        ((minerWindowSubmissions st ws we m).map (fun s => s.score)).sum /
          (((minerWindowSubmissions st ws we m).map (fun s => s.score)).length : ℚ)
    ∧ (d.final_score = 0 ↔
        (d.had_validator_failure = true ∨ d.had_x_failure = true ∨ d.raw_avg_score = 0)) := by
  have hd : d = minerData st ws we m := by
    simp only [calculate_window_scores_detailed, List.mem_map] at hmem
    obtain ⟨a, _, heq⟩ := hmem
    rw [Prod.mk.injEq] at heq
    rw [← heq.2, heq.1]
  subst hd
  refine ⟨?_, ?_, ?_, ?_, rfl, ?_⟩
  · rw [minerData_had_vf]
    simp only [hadValidatorFailure, List.any_eq_true, Bool.and_eq_true, decide_eq_true_eq]
  · rw [minerData_had_xf]
    simp only [hadXFailure, List.any_eq_true, decide_eq_true_eq]
  · intro h
    rw [minerData_final]
    rw [minerData_had_vf] at h
    rw [minerData_had_xf] at h
    rcases h with h | h <;> simp [h]
  · intro h1 h2
    rw [minerData_had_vf] at h1
    rw [minerData_had_xf] at h2
    rw [minerData_final, minerData_raw, h1, h2]
    simp
  · rw [minerData_final, minerData_raw, minerData_had_vf, minerData_had_xf]
    cases hvf : hadValidatorFailure st ws we m <;>
      cases hxf : hadXFailure st ws we m <;> simp

/-- Witness for C1: in a window containing one submission of miner m1
that failed X validation, m1's final score is 0. -/
theorem C1_final_score_zeroing_witness :
    (minerData stXFail 0 99 "m1").final_score = 0 :=
  (C1_final_score_zeroing stXFail 0 99 "m1" (minerData stXFail 0 99 "m1")
    (List.mem_map_of_mem (fun m => (m, minerData stXFail 0 99 m))
      (by decide : "m1" ∈ windowMiners stXFail 0 99))).2.2.1 (Or.inr rfl)

/-- Counterexample to C1 as frozen: a miner with a single submission whose
score is 0 and no failure of any kind still gets `final_score = 0`, so
`final_score = 0` does not imply a validator or X failure. -/
theorem C1_counterexample_zero_average :
    ("m1", minerData stZeroScore 0 99 "m1") ∈
        (calculate_window_scores_detailed stZeroScore 0 99).per_miner
    ∧ (minerData stZeroScore 0 99 "m1").final_score = 0
    ∧ (minerData stZeroScore 0 99 "m1").had_validator_failure = false
    ∧ (minerData stZeroScore 0 99 "m1").had_x_failure = false := by
  refine ⟨List.mem_map_of_mem (fun m => (m, minerData stZeroScore 0 99 m))
    (by decide : "m1" ∈ windowMiners stZeroScore 0 99), ?_, rfl, rfl⟩
  rw [minerData_final]
  have hvf : hadValidatorFailure stZeroScore 0 99 "m1" = false := rfl
  have hxf : hadXFailure stZeroScore 0 99 "m1" = false := rfl
  rw [hvf, hxf]
  have hsubs : minerWindowSubmissions stZeroScore 0 99 "m1" =
      [sampleSubmission "m1" "p1" 0 50] := rfl
  rw [hsubs]
  show listAvg [(0 : ℚ)] = 0
  norm_num [listAvg]

theorem getScores_cached_eq (cfg : Config) (b : ℕ) (now : ℤ) (st : State)
    (f : ScoresFileState) (hf : st.scores_file = some f)
    (h0 : 0 ≤ (blockWindowStart cfg b : ℤ) - (cfg.blocksPerWindow : ℤ))
    (h1 : f.window_start = (blockWindowStart cfg b : ℤ) - (cfg.blocksPerWindow : ℤ))
    (h2 : f.window_end = (blockWindowStart cfg b : ℤ) - 1) :
    get_all_hotkey_scores_last_block_window cfg b now st =
      { scores := f.scores, window_end_block := (blockWindowStart cfg b : ℤ) - 1,
        state := st, recomputed := false } := by
  simp only [get_all_hotkey_scores_last_block_window, hf]
  rw [if_neg (by omega), if_pos ⟨h1, h2⟩]

/-! ## Claim C4 -/

/-- Claim C4 (confirmed): when the memoized state file records exactly the
current previous-window bounds, `get_all_hotkey_scores_last_block_window`
returns the file's scores mapping and performs no database work — the
returned state is the input state (all tables and the file unchanged) and
the recompute flag is false; moreover, for any first call, a second
back-to-back call within the same previous-window interval recomputes
nothing, returns the same scores and leaves the state of the first call
unchanged. -/
theorem C4_memoized_scores (cfg : Config) (b b2 : ℕ) (now now2 : ℤ) (st : State) :
    (∀ f, st.scores_file = some f →
      0 ≤ (blockWindowStart cfg b : ℤ) - (cfg.blocksPerWindow : ℤ) →
      f.window_start = (blockWindowStart cfg b : ℤ) - (cfg.blocksPerWindow : ℤ) →
      f.window_end = (blockWindowStart cfg b : ℤ) - 1 →
      get_all_hotkey_scores_last_block_window cfg b now st =
        { scores := f.scores,
          window_end_block := (blockWindowStart cfg b : ℤ) - 1,
          state := st, recomputed := false })
    ∧ (blockWindowStart cfg b2 = blockWindowStart cfg b →
        (get_all_hotkey_scores_last_block_window cfg b2 now2
            (get_all_hotkey_scores_last_block_window cfg b now st).state).recomputed = false
        ∧ (get_all_hotkey_scores_last_block_window cfg b2 now2
            (get_all_hotkey_scores_last_block_window cfg b now st).state).scores
          = (get_all_hotkey_scores_last_block_window cfg b now st).scores
        ∧ (get_all_hotkey_scores_last_block_window cfg b2 now2
            (get_all_hotkey_scores_last_block_window cfg b now st).state).state
          = (get_all_hotkey_scores_last_block_window cfg b now st).state) := by
  constructor
  · intro f hf h0 h1 h2
    exact getScores_cached_eq cfg b now st f hf h0 h1 h2
  · intro hb
    by_cases h0 : (blockWindowStart cfg b : ℤ) - (cfg.blocksPerWindow : ℤ) < 0
    · have h0' : (blockWindowStart cfg b2 : ℤ) - (cfg.blocksPerWindow : ℤ) < 0 := by
        rw [hb]; exact h0
      have e1 : get_all_hotkey_scores_last_block_window cfg b now st =
          { scores := [], window_end_block := (b : ℤ), state := st,
            recomputed := false } := by
        simp only [get_all_hotkey_scores_last_block_window]
        rw [if_pos h0]
      rw [e1]
      have e2 : get_all_hotkey_scores_last_block_window cfg b2 now2 st =
          { scores := [], window_end_block := (b2 : ℤ), state := st,
            recomputed := false } := by
        simp only [get_all_hotkey_scores_last_block_window]
        rw [if_pos h0']
      rw [e2]
      exact ⟨rfl, rfl, rfl⟩
    · push_neg at h0
      have hcast1 : ((((blockWindowStart cfg b : ℤ) - (cfg.blocksPerWindow : ℤ)).toNat : ℤ))
          = (blockWindowStart cfg b : ℤ) - (cfg.blocksPerWindow : ℤ) :=
        Int.toNat_of_nonneg h0
      have hcast2 : ((((blockWindowStart cfg b : ℤ) - 1).toNat : ℤ))
          = (blockWindowStart cfg b : ℤ) - 1 := by
        have := cfg.blocksPerWindow_pos
        refine Int.toNat_of_nonneg ?_
        omega
      cases hf : st.scores_file with
      | some f =>
        by_cases hhit : f.window_start = (blockWindowStart cfg b : ℤ) - (cfg.blocksPerWindow : ℤ)
            ∧ f.window_end = (blockWindowStart cfg b : ℤ) - 1
        · have e1 := getScores_cached_eq cfg b now st f hf h0 hhit.1 hhit.2
          have e2 := getScores_cached_eq cfg b2 now2 st f hf
            (by rw [hb]; exact h0) (by rw [hb]; exact hhit.1) (by rw [hb]; exact hhit.2)
          rw [e1, e2]
          exact ⟨rfl, rfl, rfl⟩
        · have e1 : get_all_hotkey_scores_last_block_window cfg b now st =
              recompute_previous_window cfg b
                ((blockWindowStart cfg b : ℤ) - (cfg.blocksPerWindow : ℤ)).toNat
                ((blockWindowStart cfg b : ℤ) - 1).toNat now st := by
            simp only [get_all_hotkey_scores_last_block_window, hf]
            rw [if_neg (by omega), if_neg hhit]
          rw [e1]
          have e2 := getScores_cached_eq cfg b2 now2
            (recompute_previous_window cfg b
              ((blockWindowStart cfg b : ℤ) - (cfg.blocksPerWindow : ℤ)).toNat
              ((blockWindowStart cfg b : ℤ) - 1).toNat now st).state
            _ rfl (by rw [hb]; exact h0) (by rw [hb]; exact hcast1) (by rw [hb]; exact hcast2)
          rw [e2]
          exact ⟨rfl, rfl, rfl⟩
      | none =>
        have e1 : get_all_hotkey_scores_last_block_window cfg b now st =
            recompute_previous_window cfg b
              ((blockWindowStart cfg b : ℤ) - (cfg.blocksPerWindow : ℤ)).toNat
              ((blockWindowStart cfg b : ℤ) - 1).toNat now st := by
          simp only [get_all_hotkey_scores_last_block_window, hf]
          rw [if_neg (by omega)]
        rw [e1]
        have e2 := getScores_cached_eq cfg b2 now2
          (recompute_previous_window cfg b
            ((blockWindowStart cfg b : ℤ) - (cfg.blocksPerWindow : ℤ)).toNat
            ((blockWindowStart cfg b : ℤ) - 1).toNat now st).state
          _ rfl (by rw [hb]; exact h0) (by rw [hb]; exact hcast1) (by rw [hb]; exact hcast2)
        rw [e2]
        exact ⟨rfl, rfl, rfl⟩

/-- Witness for C4: with the scores file memoizing window [0, 99] and the
current block 150, the call returns the cached mapping, leaves the state
unchanged and recomputes nothing. -/
theorem C4_memoized_scores_witness :
    get_all_hotkey_scores_last_block_window Config.default 150 5 stCached =
      { scores := sampleScoresFile.scores,
        window_end_block := (blockWindowStart Config.default 150 : ℤ) - 1,
        state := stCached, recomputed := false } :=
  (C4_memoized_scores Config.default 150 150 5 5 stCached).1 sampleScoresFile rfl
    (by decide) (by decide) (by decide)

/-! ## Claim C5 -/

/-- Claim C5 (confirmed): for a non-duplicate submission, if the miner
already has at least MAX_SUBMISSION_RATE rows with `accepted_block ≥
w_start` then `insert_submission` fails with error code `limit_exceeded`,
leaves the state unchanged, and reports `next_window_start_block = w_start
+ BLOCKS_PER_WINDOW`, `blocks_until_reset = next_window_start_block −
current_block` and `estimated_seconds_until_reset = blocks_until_reset ·
SECONDS_PER_BLOCK`; below the cap the submission is inserted with
`accepted_block = current_block`. -/
theorem C5_rate_limit (cfg : Config) (post : Post) (now : ℤ) (b : ℕ) (st : State)
    (hnodup : ∀ s ∈ st.submissions,
      ¬(s.miner_hotkey = post.miner_hotkey ∧ s.post_id = post.post_id)) :
    (cfg.maxSubmissionRate ≤ countSubmissionsSince st post.miner_hotkey (blockWindowStart cfg b) →
      ∃ info, insert_submission cfg post now b st =
          ({ is_new := false, error_code := some "limit_exceeded",
             rate_limit_info := some info }, st)
        ∧ info.next_window_start_block = blockWindowStart cfg b + cfg.blocksPerWindow
        ∧ (info.blocks_until_reset : ℤ) = (info.next_window_start_block : ℤ) - (b : ℤ)
        ∧ info.estimated_seconds_until_reset = (info.blocks_until_reset : ℚ) * cfg.secondsPerBlock
        ∧ info.current_block = b)
    ∧ (countSubmissionsSince st post.miner_hotkey (blockWindowStart cfg b) < cfg.maxSubmissionRate →
      insert_submission cfg post now b st =
        ({ is_new := true, error_code := none, rate_limit_info := none },
         { st with submissions := st.submissions ++ [newSubmissionRow post now b] })
      ∧ (newSubmissionRow post now b).accepted_block = b
      ∧ (newSubmissionRow post now b).miner_hotkey = post.miner_hotkey
      ∧ (newSubmissionRow post now b).post_id = post.post_id
      ∧ (newSubmissionRow post now b).score = post.score
      ∧ (newSubmissionRow post now b).accepted_at = now) := by
  have hany : st.submissions.any (fun s =>
      decide (s.miner_hotkey = post.miner_hotkey ∧ s.post_id = post.post_id)) = false := by
    rw [List.any_eq_false]
    intro s hs
    simpa using hnodup s hs
  constructor
  · intro hcap
    refine ⟨mkRateLimitInfo cfg
      (countSubmissionsSince st post.miner_hotkey (blockWindowStart cfg b)) b, ?_, ?_, ?_, ?_, ?_⟩
    · rw [insert_submission, hany]
      simp only [Bool.false_eq_true, if_false, if_pos hcap]
    · rfl
    · show ((blockWindowStart cfg b + cfg.blocksPerWindow - b : ℕ) : ℤ)
        = ((blockWindowStart cfg b + cfg.blocksPerWindow : ℕ) : ℤ) - (b : ℤ)
      have hb : b ≤ blockWindowStart cfg b + cfg.blocksPerWindow :=
        Nat.le_of_lt (lt_blockWindowStart_add cfg b)
      omega
    · rfl
    · rfl
  · intro hlt
    refine ⟨?_, rfl, rfl, rfl, rfl, rfl⟩
    rw [insert_submission, hany]
    simp only [Bool.false_eq_true, if_false, if_neg (Nat.not_le.mpr hlt)]

/-- Witness for C5: the empty database holds no duplicate of post p1 and
miner m1 is below the default cap, so the submission is inserted at the
current block 150. -/
theorem C5_rate_limit_witness :
    insert_submission Config.default (samplePost "m1" "p1") 7 150 initState =
      ({ is_new := true, error_code := none, rate_limit_info := none },
       { initState with submissions :=
          [newSubmissionRow (samplePost "m1" "p1") 7 150] })
    ∧ (newSubmissionRow (samplePost "m1" "p1") 7 150).accepted_block = 150
    ∧ (newSubmissionRow (samplePost "m1" "p1") 7 150).miner_hotkey = "m1"
    ∧ (newSubmissionRow (samplePost "m1" "p1") 7 150).post_id = "p1"
    ∧ (newSubmissionRow (samplePost "m1" "p1") 7 150).score = (samplePost "m1" "p1").score
    ∧ (newSubmissionRow (samplePost "m1" "p1") 7 150).accepted_at = 7 :=
  (C5_rate_limit Config.default (samplePost "m1" "p1") 7 150 initState
    (by intro s hs; simp [initState] at hs)).2 (by decide)

/-! ## Claim C6 -/

/-- Claim C6 (confirmed): a submission whose `(miner_identity, post_id)`
pair already exists returns `is_new = false` with no error code and leaves
the whole state unchanged (so the per-window count is unchanged); no cap
hypothesis appears, so the duplicate answer wins even when the miner is at
its rate limit — the duplicate check precedes the rate-limit check. -/
theorem C6_duplicate (cfg : Config) (post : Post) (now : ℤ) (b : ℕ) (st : State)
    (hdup : ∃ s ∈ st.submissions,
      s.miner_hotkey = post.miner_hotkey ∧ s.post_id = post.post_id) :
    insert_submission cfg post now b st =
      ({ is_new := false, error_code := none, rate_limit_info := none }, st)
    ∧ ∀ m w, countSubmissionsSince (insert_submission cfg post now b st).2 m w
        = countSubmissionsSince st m w := by
  have hany : st.submissions.any (fun s =>
      decide (s.miner_hotkey = post.miner_hotkey ∧ s.post_id = post.post_id)) = true := by
    rw [List.any_eq_true]
    obtain ⟨s, hs, h1, h2⟩ := hdup
    exact ⟨s, hs, by simp [h1, h2]⟩
  have heq : insert_submission cfg post now b st =
      ({ is_new := false, error_code := none, rate_limit_info := none }, st) := by
    rw [insert_submission, hany]
    simp
  exact ⟨heq, by intro m w; rw [heq]⟩

/-- Witness for C6: with MAX_SUBMISSION_RATE = 1 and miner m1 already at
the cap with the very post p1, resubmitting p1 is answered as a duplicate
(not as rate-limited) and changes nothing. -/
theorem C6_duplicate_witness :
    insert_submission cfgRate1 (samplePost "m1" "p1") 9 150 stOneSub =
      ({ is_new := false, error_code := none, rate_limit_info := none }, stOneSub)
    ∧ cfgRate1.maxSubmissionRate ≤
        countSubmissionsSince stOneSub "m1" (blockWindowStart cfgRate1 150) :=
  ⟨(C6_duplicate cfgRate1 (samplePost "m1" "p1") 9 150 stOneSub
      ⟨sampleSubmission "m1" "p1" (1 / 2) 150, by simp [stOneSub], by decide⟩).1,
   by decide⟩

theorem filter_eq_singleton_of_mem_of_le_one {α : Type} {l : List α} {p : α → Bool}
    {x : α} (hx : x ∈ l.filter p) (hlen : (l.filter p).length ≤ 1) :
    l.filter p = [x] := by
  rcases hf : l.filter p with _ | ⟨y, ys⟩
  · rw [hf] at hx
    cases hx
  · rw [hf] at hx hlen
    rcases ys with _ | ⟨z, zs⟩
    · have hxy := List.mem_singleton.mp hx
      rw [hxy]
    · simp at hlen

/-- Supporting specification for a successful `record_validation_result`
call: when the submission lookup and the assignment check both succeed and
at most one stored result row bears the id (the table's PRIMARY KEY), the
call returns true, leaves exactly one result row for the id carrying the
written fields, completes the assignment, and does not touch the
submissions table. -/
theorem record_result_success_spec (validator : String) (vid : ℕ) (miner : String)
    (success : Bool) (fr : Option String) (now : ℤ) (st : State)
    (hsub : ∃ s ∈ st.submissions, s.validation_id = some vid ∧ s.miner_hotkey = miner)
    (hassign : ∃ a ∈ st.validator_assignments,
      a.validation_id = vid ∧ a.validator_hotkey = validator)
    (hpk : (st.validation_results.filter
      (fun r => decide (r.validation_id = vid))).length ≤ 1) :
    (record_validation_result validator vid miner success fr now st).1 = true
    ∧ (∃ r, (record_validation_result validator vid miner success fr now st).2.validation_results.filter
          (fun r => decide (r.validation_id = vid)) = [r]
        ∧ r.validation_id = vid ∧ r.validator_hotkey = validator ∧ r.success = success
        ∧ r.failure_reason = fr ∧ r.validated_at = now)
    ∧ (∀ a ∈ (record_validation_result validator vid miner success fr now st).2.validator_assignments,
        a.validation_id = vid → a.validator_hotkey = validator → a.completed_at = some now)
    ∧ (record_validation_result validator vid miner success fr now st).2.submissions
        = st.submissions
    ∧ (∃ a ∈ (record_validation_result validator vid miner success fr now st).2.validator_assignments,
        a.validation_id = vid ∧ a.validator_hotkey = validator) := by
  obtain ⟨s0, hs0, hp1, hp2⟩ := hsub
  have hfindsome : (st.submissions.find? (fun s =>
      decide (s.validation_id = some vid ∧ s.miner_hotkey = miner))).isSome := by
    rw [List.find?_isSome]
    exact ⟨s0, hs0, by simp [hp1, hp2]⟩
  obtain ⟨sub, hfind⟩ := Option.isSome_iff_exists.mp hfindsome
  have hany : st.validator_assignments.any (fun a =>
      decide (a.validation_id = vid ∧ a.validator_hotkey = validator)) = true := by
    rw [List.any_eq_true]
    obtain ⟨a, ha, h1, h2⟩ := hassign
    exact ⟨a, ha, by simp [h1, h2]⟩
  have e : record_validation_result validator vid miner success fr now st =
      (true, { st with
        validation_results :=
          if st.validation_results.any (fun r => decide (r.validation_id = vid)) then
            st.validation_results.map fun r =>
              if r.validation_id = vid then
                { r with validator_hotkey := validator, success := success,
                         failure_reason := fr, validated_at := now }
              else r
          else
            st.validation_results ++
              [{ validation_id := vid, validator_hotkey := validator,
                 miner_hotkey := miner, post_id := sub.post_id, success := success,
                 failure_reason := fr, validated_at := now }],
        validator_assignments := st.validator_assignments.map fun a =>
          if a.validation_id = vid ∧ a.validator_hotkey = validator then
            { a with completed_at := some now }
          else a }) := by
    simp only [record_validation_result, hfind]
    rw [if_pos hany]
  refine ⟨by rw [e], ?_, ?_, by rw [e], ?_⟩
  · rw [e]
    by_cases hex : st.validation_results.any (fun r => decide (r.validation_id = vid)) = true
    · rw [if_pos hex]
      obtain ⟨r0, hr0, hr0v⟩ := List.any_eq_true.mp hex
      have hr0vid : r0.validation_id = vid := by simpa using hr0v
      have hmemf : r0 ∈ st.validation_results.filter
          (fun r => decide (r.validation_id = vid)) :=
        List.mem_filter.mpr ⟨hr0, by simp [hr0vid]⟩
      have hsingle := filter_eq_singleton_of_mem_of_le_one hmemf hpk
      refine ⟨{ r0 with validator_hotkey := validator, success := success, failure_reason := fr, validated_at := now }, ?_, by simpa using hr0vid, rfl, rfl, rfl, rfl⟩
      rw [List.filter_map]
      have hcongr : st.validation_results.filter
          ((fun r => decide (r.validation_id = vid)) ∘ (fun r =>
            if r.validation_id = vid then
              { r with validator_hotkey := validator, success := success,
                       failure_reason := fr, validated_at := now }
            else r)) = st.validation_results.filter
          (fun r => decide (r.validation_id = vid)) := by
        refine List.filter_congr ?_
        intro r _
        by_cases hr : r.validation_id = vid
        · simp [Function.comp, hr]
        · simp [Function.comp, hr]
      rw [hcongr, hsingle]
      simp [hr0vid]
    · rw [if_neg hex]
      have hnil : st.validation_results.filter
          (fun r => decide (r.validation_id = vid)) = [] := by
        rw [List.filter_eq_nil_iff]
        intro r hr
        have := List.any_eq_false.mp (Bool.eq_false_iff.mpr hex)
        simpa using this r hr
      refine ⟨{ validation_id := vid, validator_hotkey := validator, miner_hotkey := miner, post_id := sub.post_id, success := success, failure_reason := fr, validated_at := now }, ?_, rfl, rfl, rfl, rfl, rfl⟩
      rw [List.filter_append, hnil]
      simp
  · rw [e]
    intro a ha h1 h2
    simp only [List.mem_map] at ha
    obtain ⟨a0, _, rfl⟩ := ha
    by_cases hc : a0.validation_id = vid ∧ a0.validator_hotkey = validator
    · rw [if_pos hc]
    · rw [if_neg hc] at h1 h2
      exact absurd ⟨h1, h2⟩ hc
  · rw [e]
    obtain ⟨a0, ha0, h1, h2⟩ := hassign
    refine ⟨{ a0 with completed_at := some now }, ?_, h1, h2⟩
    exact List.mem_map.mpr ⟨a0, ha0, by simp [h1, h2]⟩

/-! ## Claim C8 -/

/-- Claim C8 (corrected): `record_validation_result` returns failure and
writes nothing when no ValidatorAssignment exists for `(validation_id,
validator_identity)`; when such an assignment exists **and the supplied
miner matches the submission carrying the validation_id** (the
precondition claim C10 documents), recording any number of times leaves
exactly one ValidationResult row whose success, failure_reason,
validator_identity and validated_at equal the last write, and sets the
assignment's completed_at.  The at-most-one-stored-row hypothesis is the
table's PRIMARY KEY on validation_id.  (The original claim omitted the
miner-match precondition: with the assignment present but a mismatched
miner, the call fails and leaves zero rows, not one.) -/
theorem C8_record_result_upsert (validator : String) (vid : ℕ) (miner : String)
    (success success2 : Bool) (fr fr2 : Option String) (now now2 : ℤ) (st : State) :
    ((¬ ∃ a ∈ st.validator_assignments,
        a.validation_id = vid ∧ a.validator_hotkey = validator) →
      record_validation_result validator vid miner success fr now st = (false, st))
    ∧ ((∃ s ∈ st.submissions, s.validation_id = some vid ∧ s.miner_hotkey = miner) →
       (∃ a ∈ st.validator_assignments,
          a.validation_id = vid ∧ a.validator_hotkey = validator) →
       (st.validation_results.filter (fun r => decide (r.validation_id = vid))).length ≤ 1 →
       ((record_validation_result validator vid miner success fr now st).1 = true
        ∧ (∃ r, (record_validation_result validator vid miner success fr now st).2.validation_results.filter
              (fun r => decide (r.validation_id = vid)) = [r]
            ∧ r.validator_hotkey = validator ∧ r.success = success
            ∧ r.failure_reason = fr ∧ r.validated_at = now)
        ∧ (∀ a ∈ (record_validation_result validator vid miner success fr now st).2.validator_assignments,
            a.validation_id = vid → a.validator_hotkey = validator →
              a.completed_at = some now)
        ∧ (∃ r2, (record_validation_result validator vid miner success2 fr2 now2
              (record_validation_result validator vid miner success fr now st).2).2.validation_results.filter
                (fun r => decide (r.validation_id = vid)) = [r2]
            ∧ r2.validator_hotkey = validator ∧ r2.success = success2
            ∧ r2.failure_reason = fr2 ∧ r2.validated_at = now2))) := by
  constructor
  · intro hno
    have hanyf : st.validator_assignments.any (fun a =>
        decide (a.validation_id = vid ∧ a.validator_hotkey = validator)) = false := by
      rw [List.any_eq_false]
      intro a ha
      simp only [decide_eq_true_eq]
      exact fun hc => hno ⟨a, ha, hc⟩
    cases hf : st.submissions.find? (fun s =>
        decide (s.validation_id = some vid ∧ s.miner_hotkey = miner)) with
    | none => rw [record_validation_result, hf]
    | some sub =>
      simp only [record_validation_result, hf]
      rw [if_neg (by rw [hanyf]; exact Bool.false_ne_true)]
  · intro hsub hassign hpk
    have first := record_result_success_spec validator vid miner success fr now st
      hsub hassign hpk
    obtain ⟨h1, ⟨r, hr, hrv, hrval, hrsucc, hrfr, hrat⟩, hcomp, hsubs, hassign1⟩ := first
    refine ⟨h1, ⟨r, hr, hrval, hrsucc, hrfr, hrat⟩, hcomp, ?_⟩
    have hsub1 : ∃ s ∈ (record_validation_result validator vid miner success fr now st).2.submissions,
        s.validation_id = some vid ∧ s.miner_hotkey = miner := by
      rw [hsubs]
      exact hsub
    have hpk1 : ((record_validation_result validator vid miner success fr now st).2.validation_results.filter
        (fun r => decide (r.validation_id = vid))).length ≤ 1 := by
      rw [hr]
      simp
    have second := record_result_success_spec validator vid miner success2 fr2 now2
      (record_validation_result validator vid miner success fr now st).2
      hsub1 hassign1 hpk1
    obtain ⟨_, ⟨r2, hr2, _, hr2val, hr2succ, hr2fr, hr2at⟩, _, _, _⟩ := second
    exact ⟨r2, hr2, hr2val, hr2succ, hr2fr, hr2at⟩

/-- Witness for C8: in the assigned state, validator v1 records a failing
then a passing verdict for validation id 1; afterwards exactly one result
row for id 1 remains and it carries the **second** write. -/
theorem C8_record_result_upsert_witness :
    (record_validation_result "v1" 1 "m1" false (some "text_mismatch") 9 stAssigned).1 = true
    ∧ ∃ r2, (record_validation_result "v1" 1 "m1" true none 11
          (record_validation_result "v1" 1 "m1" false (some "text_mismatch") 9 stAssigned).2).2.validation_results.filter
            (fun r => decide (r.validation_id = 1)) = [r2]
        ∧ r2.validator_hotkey = "v1" ∧ r2.success = true
        ∧ r2.failure_reason = none ∧ r2.validated_at = 11 := by
  have h := (C8_record_result_upsert "v1" 1 "m1" false true (some "text_mismatch") none
    9 11 stAssigned).2
    ⟨promotedSubmission, by simp [stAssigned], by decide, by decide⟩
    ⟨assignmentOne, by simp [stAssigned], by decide, by decide⟩
    (by decide)
  exact ⟨h.1, h.2.2.2⟩

/-- Counterexample to C8 as frozen: validator v1 holds the assignment for
validation id 1, yet recording with a miner identity different from the
one stored on the submission fails and leaves zero ValidationResult rows —
not the single last-write row the claim promises whenever the assignment
exists. -/
theorem C8_counterexample_miner_mismatch :
    (∃ a ∈ stAssigned.validator_assignments,
        a.validation_id = 1 ∧ a.validator_hotkey = "v1")
    ∧ record_validation_result "v1" 1 "m2" true none 9 stAssigned = (false, stAssigned)
    ∧ (record_validation_result "v1" 1 "m2" true none 9 stAssigned).2.validation_results = [] :=
  ⟨⟨assignmentOne, by simp [stAssigned], by decide⟩, rfl, rfl⟩

/-! ## Claim C10 -/

/-- Claim C10 (confirmed): `record_validation_result` requires the
supplied miner identity to match the submission owning the validation id:
whenever no submission carries `(validation_id, miner_hotkey)` as supplied
— in particular when the submission bearing the id names a different
miner, even though the id exists and the calling validator holds its
assignment — the call returns failure and leaves the state unchanged. -/
theorem C10_record_requires_miner_match (validator : String) (vid : ℕ)
    (miner : String) (success : Bool) (fr : Option String) (now : ℤ) (st : State)
    (hmismatch : ∀ s ∈ st.submissions,
      s.validation_id = some vid → s.miner_hotkey ≠ miner) :
    record_validation_result validator vid miner success fr now st = (false, st) := by
  have hfind : st.submissions.find? (fun s =>
      decide (s.validation_id = some vid ∧ s.miner_hotkey = miner)) = none := by
    rw [List.find?_eq_none]
    intro s hs
    simp only [decide_eq_true_eq, not_and]
    exact fun h1 => hmismatch s hs h1
  rw [record_validation_result, hfind]

/-- Witness for C10: validation id 1 belongs to miner m1 and is assigned
to validator v1, yet recording it under miner identity m2 fails and
changes nothing. -/
theorem C10_record_requires_miner_match_witness :
    record_validation_result "v1" 1 "m2" true none 9 stAssigned = (false, stAssigned)
    ∧ ∃ a ∈ stAssigned.validator_assignments,
        a.validation_id = 1 ∧ a.validator_hotkey = "v1" :=
  ⟨C10_record_requires_miner_match "v1" 1 "m2" true none 9 stAssigned (by decide),
   ⟨assignmentOne, by simp [stAssigned], by decide⟩⟩

theorem assignLoop_spec (validator : String) (now : ℤ) (rows : List Submission)
    (assigns : List ValidatorAssignment) (acc : List ℕ) :
    ∃ new : List ValidatorAssignment,
      (assignLoop validator now rows assigns acc).1 = assigns ++ new
      ∧ (assignLoop validator now rows assigns acc).2
          = acc ++ new.map (fun a => a.validation_id)
      ∧ (∀ a ∈ new, a.validator_hotkey = validator ∧ a.assigned_at = now
          ∧ a.completed_at = none)
      ∧ (∀ a ∈ new, a.validation_id ∉ assigns.map (fun a2 => a2.validation_id))
      ∧ (new.map (fun a => a.validation_id)).Nodup := by
  induction rows generalizing assigns acc with
  | nil =>
    exact ⟨[], by simp [assignLoop], by simp [assignLoop], by simp, by simp, by simp⟩
  | cons r rest ih =>
    cases hv : r.validation_id with
    | none =>
      simpa only [assignLoop, hv] using ih assigns acc
    | some vid =>
      by_cases hc : (assigns.map (fun a => a.validation_id)).contains vid = true
      · obtain ⟨new, h1, h2, h3, h4, h5⟩ := ih assigns acc
        refine ⟨new, ?_, ?_, h3, h4, h5⟩
        · simp only [assignLoop, hv, hc, if_true]
          exact h1
        · simp only [assignLoop, hv, hc, if_true]
          exact h2
      · obtain ⟨new, h1, h2, h3, h4, h5⟩ := ih
          (assigns ++ [{ validation_id := vid, validator_hotkey := validator, assigned_at := now, completed_at := none }])
          (acc ++ [vid])
        have hnotmem : vid ∉ assigns.map (fun a2 => a2.validation_id) := by
          simpa using hc
        refine ⟨({ validation_id := vid, validator_hotkey := validator, assigned_at := now, completed_at := none } : ValidatorAssignment) :: new, ?_, ?_, ?_, ?_, ?_⟩
        · simp only [assignLoop, hv]
          rw [if_neg hc, h1]
          simp
        · simp only [assignLoop, hv]
          rw [if_neg hc, h2]
          simp
        · intro a ha
          rcases List.mem_cons.mp ha with rfl | ha2
          · exact ⟨rfl, rfl, rfl⟩
          · exact h3 a ha2
        · intro a ha
          rcases List.mem_cons.mp ha with rfl | ha2
          · exact hnotmem
          · intro hmem
            exact h4 a ha2 (by rw [List.map_append]; exact List.mem_append_left _ hmem)
        · rw [List.map_cons, List.nodup_cons]
          refine ⟨?_, h5⟩
          intro hmem
          obtain ⟨a, ha, hav⟩ := List.mem_map.mp hmem
          have := h4 a ha
          rw [List.map_append] at this
          exact this (List.mem_append_right _ (by simp [hav]))

theorem get_pending_spec (cfg : Config) (validator : String) (now : ℤ) (st : State) :
    ∃ new : List ValidatorAssignment,
      (get_pending_validations cfg validator now st).2
        = { st with validator_assignments := st.validator_assignments ++ new }
      ∧ (∀ a ∈ new, a.validator_hotkey = validator ∧ a.assigned_at = now
          ∧ a.completed_at = none ∧ a.validation_id ∉ assignedIds st)
      ∧ (new.map (fun a => a.validation_id)).Nodup
      ∧ (∀ p ∈ (get_pending_validations cfg validator now st).1,
          ∃ a ∈ new, a.validation_id = p.validation_id)
      ∧ (new = [] → (get_pending_validations cfg validator now st).1 = [])
      ∧ (get_pending_validations cfg validator now st).1.length
          ≤ cfg.validationsPerRequest := by
  by_cases hrows : (pendingRows cfg st).isEmpty = true
  · refine ⟨[], ?_, by simp, by simp, ?_, ?_, ?_⟩
    · simp [get_pending_validations, hrows]
    · intro p hp
      simp only [get_pending_validations, hrows, if_true] at hp
      exact absurd hp (List.not_mem_nil p)
    · intro _
      simp [get_pending_validations, hrows]
    · simp [get_pending_validations, hrows]
  · obtain ⟨new, h1, h2, h3, h4, h5⟩ :=
      assignLoop_spec validator now (pendingRows cfg st) st.validator_assignments []
    have hdef : get_pending_validations cfg validator now st =
        (if ((pendingRows cfg st).filter fun r =>
              match r.validation_id with
              | some vid => (assignLoop validator now (pendingRows cfg st)
                  st.validator_assignments []).2.contains vid
              | none => false).isEmpty
          then []
          else ((pendingRows cfg st).filter fun r =>
              match r.validation_id with
              | some vid => (assignLoop validator now (pendingRows cfg st)
                  st.validator_assignments []).2.contains vid
              | none => false).map (fun r =>
                { validation_id := r.validation_id.getD 0,
                  miner_hotkey := r.miner_hotkey, post := r,
                  selected_at := r.accepted_at }),
         { st with validator_assignments := (assignLoop validator now
            (pendingRows cfg st) st.validator_assignments []).1 }) := by
      simp only [get_pending_validations]
      rw [if_neg hrows]
      split_ifs <;> rfl
    refine ⟨new, ?_, ?_, h5, ?_, ?_, ?_⟩
    · rw [hdef]
      simp only [h1]
    · intro a ha
      obtain ⟨hval, hat, hcomp⟩ := h3 a ha
      exact ⟨hval, hat, hcomp, h4 a ha⟩
    · intro p hp
      rw [hdef] at hp
      by_cases hfe : ((pendingRows cfg st).filter fun r =>
          match r.validation_id with
          | some vid => (assignLoop validator now (pendingRows cfg st)
              st.validator_assignments []).2.contains vid
          | none => false).isEmpty = true
      · rw [if_pos hfe] at hp
        exact absurd hp (List.not_mem_nil p)
      · rw [if_neg hfe] at hp
        obtain ⟨r, hr, rfl⟩ := List.mem_map.mp hp
        have hrpred := (List.mem_filter.mp hr).2
        cases hvid : r.validation_id with
        | none =>
          rw [hvid] at hrpred
          simp at hrpred
        | some vid =>
          rw [hvid] at hrpred
          have hvin : vid ∈ new.map (fun a => a.validation_id) := by
            have hcont : (assignLoop validator now (pendingRows cfg st)
                st.validator_assignments []).2.contains vid = true := hrpred
            rw [h2] at hcont
            simpa using hcont
          obtain ⟨a, ha, hav⟩ := List.mem_map.mp hvin
          refine ⟨a, ha, ?_⟩
          simp [hav, hvid]
    · intro hnew
      rw [hdef]
      have hfe : ((pendingRows cfg st).filter fun r =>
          match r.validation_id with
          | some vid => (assignLoop validator now (pendingRows cfg st)
              st.validator_assignments []).2.contains vid
          | none => false) = [] := by
        rw [List.filter_eq_nil_iff]
        intro r _
        cases hvid : r.validation_id with
        | none => simp
        | some vid =>
          simp only
          rw [h2, hnew]
          simp
      rw [hfe]
      simp
    · rw [hdef]
      by_cases hfe : ((pendingRows cfg st).filter fun r =>
          match r.validation_id with
          | some vid => (assignLoop validator now (pendingRows cfg st)
              st.validator_assignments []).2.contains vid
          | none => false).isEmpty = true
      · rw [if_pos hfe]
        simp
      · rw [if_neg hfe]
        simp only [List.length_map]
        calc ((pendingRows cfg st).filter _).length
            ≤ (pendingRows cfg st).length := List.length_filter_le _ _
          _ ≤ cfg.validationsPerRequest := by
              unfold pendingRows
              exact List.length_take_le _ _

/-! ## Claim C2 -/

/-- Claim C2 (confirmed): assignment ids stay unique (at most one
ValidatorAssignment row ever exists per validation_id), a single
`get_pending_validations` call returns at most VALIDATIONS_PER_REQUEST
payloads and only payloads whose assignment row that very call inserted
(each returned id was unassigned before and is assigned to this validator
after), a call that inserts nothing returns the empty list, and across a
sequence of polls each validation id is handed out at most once (any later
poll by any validator returns disjoint ids). -/
theorem C2_exactly_once_dispatch (cfg : Config) (validator : String) (now : ℤ)
    (st : State) (hnd : (assignedIds st).Nodup) :
    (assignedIds (get_pending_validations cfg validator now st).2).Nodup
    ∧ (get_pending_validations cfg validator now st).1.length
        ≤ cfg.validationsPerRequest
    ∧ (∀ p ∈ (get_pending_validations cfg validator now st).1,
        p.validation_id ∉ assignedIds st
        ∧ ∃ a ∈ (get_pending_validations cfg validator now st).2.validator_assignments,
            a.validation_id = p.validation_id ∧ a.validator_hotkey = validator
            ∧ a.assigned_at = now)
    ∧ (assignedIds (get_pending_validations cfg validator now st).2 = assignedIds st →
        (get_pending_validations cfg validator now st).1 = [])
    ∧ (∀ v2 now2 p q, p ∈ (get_pending_validations cfg validator now st).1 →
        q ∈ (get_pending_validations cfg v2 now2
          (get_pending_validations cfg validator now st).2).1 →
        q.validation_id ≠ p.validation_id) := by
  obtain ⟨new, hstate, hfields, hnodupnew, hpay, hempty, hlen⟩ :=
    get_pending_spec cfg validator now st
  have hids : assignedIds (get_pending_validations cfg validator now st).2
      = assignedIds st ++ new.map (fun a => a.validation_id) := by
    rw [hstate]
    simp [assignedIds]
  refine ⟨?_, hlen, ?_, ?_, ?_⟩
  · rw [hids]
    refine List.Nodup.append hnd hnodupnew ?_
    intro v hv1 hv2
    obtain ⟨a, ha, hav⟩ := List.mem_map.mp hv2
    exact (hfields a ha).2.2.2 (hav ▸ hv1)
  · intro p hp
    obtain ⟨a, ha, hav⟩ := hpay p hp
    refine ⟨hav ▸ (hfields a ha).2.2.2, a, ?_, hav, (hfields a ha).1, (hfields a ha).2.1⟩
    rw [hstate]
    exact List.mem_append_right _ ha
  · intro heq
    rw [hids] at heq
    have : (new.map (fun a => a.validation_id)).length = 0 := by
      have := congrArg List.length heq
      rw [List.length_append] at this
      omega
    have hnil : new = [] := by
      rw [List.length_map] at this
      exact List.eq_nil_of_length_eq_zero this
    exact hempty hnil
  · intro v2 now2 p q hp hq
    obtain ⟨new2, _, hfields2, _, hpay2, _, _⟩ :=
      get_pending_spec cfg v2 now2 (get_pending_validations cfg validator now st).2
    obtain ⟨a2, ha2, ha2v⟩ := hpay2 q hq
    have hqnot : q.validation_id ∉
        assignedIds (get_pending_validations cfg validator now st).2 :=
      ha2v ▸ (hfields2 a2 ha2).2.2.2
    obtain ⟨a, ha, hav⟩ := hpay p hp
    have hpin : p.validation_id ∈
        assignedIds (get_pending_validations cfg validator now st).2 := by
      rw [hids]
      exact List.mem_append_right _ (hav ▸ List.mem_map_of_mem _ ha)
    intro hqp
    exact hqnot (hqp ▸ hpin)

/-- Witness for C2: in a state holding one promoted unassigned submission
and no assignments, a poll hands out at most VALIDATIONS_PER_REQUEST
payloads. -/
theorem C2_exactly_once_dispatch_witness :
    (get_pending_validations Config.default "v1" 7 stPromoted).1.length
      ≤ Config.default.validationsPerRequest :=
  (C2_exactly_once_dispatch Config.default "v1" 7 stPromoted (by decide)).2.1

theorem stateInv_congr {st st2 : State} (hs : st2.submissions = st.submissions)
    (hu : st.nextUuid ≤ st2.nextUuid) (h : StateInv st) : StateInv st2 := by
  obtain ⟨h1, h2, h3, h4⟩ := h
  refine ⟨?_, ?_, ?_, ?_⟩
  · rw [SubmissionKeysDistinct, hs]
    exact h1
  · intro s hsmem
    rw [hs] at hsmem
    exact h2 s hsmem
  · rw [VidsUnique, hs]
    exact h3
  · intro s hsmem v hv
    rw [hs] at hsmem
    exact lt_of_lt_of_le (h4 s hsmem v hv) hu

theorem stateInv_map_preserving {st st2 : State} {f : Submission → Submission}
    (hs : st2.submissions = st.submissions.map f)
    (hu : st.nextUuid ≤ st2.nextUuid)
    (hf : ∀ s, (f s).miner_hotkey = s.miner_hotkey ∧ (f s).post_id = s.post_id
      ∧ (f s).validation_id = s.validation_id
      ∧ (f s).selected_for_validation = s.selected_for_validation
      ∧ (f s).x_validation_result = s.x_validation_result)
    (h : StateInv st) : StateInv st2 := by
  obtain ⟨h1, h2, h3, h4⟩ := h
  refine ⟨?_, ?_, ?_, ?_⟩
  · rw [SubmissionKeysDistinct, hs, List.pairwise_map]
    refine h1.imp ?_
    intro a b hab hcontra
    refine hab ⟨?_, ?_⟩
    · rw [← (hf a).1, ← (hf b).1]
      exact hcontra.1
    · rw [← (hf a).2.1, ← (hf b).2.1]
      exact hcontra.2
  · intro s2 hmem
    rw [hs] at hmem
    obtain ⟨s, hsmem, rfl⟩ := List.mem_map.mp hmem
    rw [(hf s).2.2.1, (hf s).2.2.2.1, (hf s).2.2.2.2]
    exact h2 s hsmem
  · rw [VidsUnique, hs, List.pairwise_map]
    refine h3.imp ?_
    intro a b hab v hv
    rw [(hf a).2.2.1] at hv
    rw [(hf b).2.2.1]
    exact hab v hv
  · intro s2 hmem v hv
    rw [hs] at hmem
    obtain ⟨s, hsmem, rfl⟩ := List.mem_map.mp hmem
    rw [(hf s).2.2.1] at hv
    exact lt_of_lt_of_le (h4 s hsmem v hv) hu

theorem eq_of_pairwise_keys {l : List Submission}
    (hpw : l.Pairwise fun s1 s2 =>
      ¬(s1.miner_hotkey = s2.miner_hotkey ∧ s1.post_id = s2.post_id))
    {a b : Submission} (ha : a ∈ l) (hb : b ∈ l)
    (hk1 : a.miner_hotkey = b.miner_hotkey) (hk2 : a.post_id = b.post_id) :
    a = b := by
  induction l with
  | nil => cases ha
  | cons x xs ih =>
    rcases List.mem_cons.mp ha with rfl | ha2 <;> rcases List.mem_cons.mp hb with rfl | hb2
    · rfl
    · exact absurd ⟨hk1, hk2⟩ ((List.pairwise_cons.mp hpw).1 b hb2)
    · exact absurd ⟨hk1.symm, hk2.symm⟩ ((List.pairwise_cons.mp hpw).1 a ha2)
    · exact ih (List.pairwise_cons.mp hpw).2 ha2 hb2

theorem stateInv_init : StateInv initState := by
  refine ⟨?_, ?_, ?_, ?_⟩ <;>
    simp [initState, SubmissionKeysDistinct, VidIffPromoted, VidsUnique, VidsBounded]

theorem stateInv_insert (cfg : Config) (post : Post) (now : ℤ) (b : ℕ) (st : State)
    (h : StateInv st) : StateInv (insert_submission cfg post now b st).2 := by
  by_cases hdup : st.submissions.any (fun s =>
      decide (s.miner_hotkey = post.miner_hotkey ∧ s.post_id = post.post_id)) = true
  · have he : (insert_submission cfg post now b st).2 = st := by
      simp only [insert_submission, hdup, if_true]
    rw [he]
    exact h
  · have hfresh : ∀ s ∈ st.submissions,
        ¬(s.miner_hotkey = post.miner_hotkey ∧ s.post_id = post.post_id) := by
      intro s hs
      have := List.any_eq_false.mp (Bool.eq_false_iff.mpr hdup)
      simpa using this s hs
    by_cases hcap : cfg.maxSubmissionRate ≤
        countSubmissionsSince st post.miner_hotkey (blockWindowStart cfg b)
    · have he : (insert_submission cfg post now b st).2 = st := by
        simp only [insert_submission]
        rw [if_neg hdup, if_pos hcap]
      rw [he]
      exact h
    · have he : (insert_submission cfg post now b st).2 =
          { st with submissions := st.submissions ++ [newSubmissionRow post now b] } := by
        simp only [insert_submission]
        rw [if_neg hdup, if_neg hcap]
      rw [he]
      obtain ⟨h1, h2, h3, h4⟩ := h
      refine ⟨?_, ?_, ?_, ?_⟩
      · rw [SubmissionKeysDistinct]
        dsimp only
        rw [List.pairwise_append]
        refine ⟨h1, by simp, ?_⟩
        intro a ha b2 hb2
        rw [List.mem_singleton.mp hb2]
        intro hcontra
        exact hfresh a ha ⟨hcontra.1, hcontra.2⟩
      · intro s hs
        dsimp only at hs
        rcases List.mem_append.mp hs with hs1 | hs2
        · exact h2 s hs1
        · rw [List.mem_singleton.mp hs2]
          simp [newSubmissionRow]
      · rw [VidsUnique]
        dsimp only
        rw [List.pairwise_append]
        refine ⟨h3, by simp, ?_⟩
        intro a _ b2 hb2 v _
        rw [List.mem_singleton.mp hb2]
        simp [newSubmissionRow]
      · intro s hs v hv
        dsimp only at hs
        rcases List.mem_append.mp hs with hs1 | hs2
        · exact h4 s hs1 v hv
        · rw [List.mem_singleton.mp hs2] at hv
          simp [newSubmissionRow] at hv

theorem getPending_fields (cfg : Config) (validator : String) (now : ℤ) (st : State) :
    (get_pending_validations cfg validator now st).2.submissions = st.submissions
    ∧ (get_pending_validations cfg validator now st).2.nextUuid = st.nextUuid := by
  obtain ⟨new, hstate, _⟩ := get_pending_spec cfg validator now st
  rw [hstate]
  exact ⟨rfl, rfl⟩

theorem record_fields (validator : String) (vid : ℕ) (miner : String)
    (success : Bool) (fr : Option String) (now : ℤ) (st : State) :
    (record_validation_result validator vid miner success fr now st).2.submissions
      = st.submissions
    ∧ (record_validation_result validator vid miner success fr now st).2.nextUuid
      = st.nextUuid := by
  unfold record_validation_result
  split
  · exact ⟨rfl, rfl⟩
  · split
    · exact ⟨rfl, rfl⟩
    · exact ⟨rfl, rfl⟩

theorem persist_submissions_map (cfg : Config) (ws we : ℕ) (d : DetailedScores)
    (now : ℤ) (st : State) :
    ∃ g : Submission → Submission,
      (persist_window_scores cfg ws we d now st).submissions = st.submissions.map g
      ∧ ∀ s, (g s).miner_hotkey = s.miner_hotkey ∧ (g s).post_id = s.post_id
        ∧ (g s).validation_id = s.validation_id
        ∧ (g s).selected_for_validation = s.selected_for_validation
        ∧ (g s).x_validation_result = s.x_validation_result := by
  refine ⟨_, rfl, ?_⟩
  intro s
  split
  · exact ⟨rfl, rfl, rfl, rfl, rfl⟩
  · exact ⟨rfl, rfl, rfl, rfl, rfl⟩

theorem recompute_state_fields (cfg : Config) (b pws pwe : ℕ) (now : ℤ) (st : State) :
    (recompute_previous_window cfg b pws pwe now st).state.submissions
      = (persist_window_scores cfg pws pwe
          (calculate_window_scores_detailed st pws pwe) now st).submissions
    ∧ (recompute_previous_window cfg b pws pwe now st).state.nextUuid = st.nextUuid :=
  ⟨rfl, rfl⟩

theorem getScores_state_cases (cfg : Config) (b : ℕ) (now : ℤ) (st : State) :
    (get_all_hotkey_scores_last_block_window cfg b now st).state = st
    ∨ ∃ pws pwe,
      (get_all_hotkey_scores_last_block_window cfg b now st).state
        = (recompute_previous_window cfg b pws pwe now st).state := by
  by_cases h0 : ((blockWindowStart cfg b : ℤ) - (cfg.blocksPerWindow : ℤ)) < 0
  · left
    simp only [get_all_hotkey_scores_last_block_window]
    rw [if_pos h0]
  · cases hf : st.scores_file with
    | none =>
      right
      refine ⟨((blockWindowStart cfg b : ℤ) - (cfg.blocksPerWindow : ℤ)).toNat,
        ((blockWindowStart cfg b : ℤ) - 1).toNat, ?_⟩
      simp only [get_all_hotkey_scores_last_block_window, hf]
      rw [if_neg h0]
    | some f =>
      by_cases hhit : f.window_start = (blockWindowStart cfg b : ℤ) - (cfg.blocksPerWindow : ℤ)
          ∧ f.window_end = (blockWindowStart cfg b : ℤ) - 1
      · left
        simp only [get_all_hotkey_scores_last_block_window, hf]
        rw [if_neg h0, if_pos hhit]
      · right
        refine ⟨((blockWindowStart cfg b : ℤ) - (cfg.blocksPerWindow : ℤ)).toNat,
          ((blockWindowStart cfg b : ℤ) - 1).toNat, ?_⟩
        simp only [get_all_hotkey_scores_last_block_window, hf]
        rw [if_neg h0, if_neg hhit]

theorem mark_selected_state_cases (miner post_id : String) (vid : ℕ) (st1 : State) :
    (select_post_mark_selected miner post_id vid st1).2 = st1
    ∨ (select_post_mark_selected miner post_id vid st1).2
      = { st1 with submissions := casSelect miner post_id vid st1.submissions } := by
  unfold select_post_mark_selected
  split
  · left
    rfl
  · split
    · left
      rfl
    · split
      · split
        · left
          rfl
        · left
          rfl
      · right
        rfl

theorem stateInv_markX_map {st st2 : State} {miner post_id : String}
    {g : Submission → Submission}
    (hsub : st2.submissions = st.submissions.map g)
    (hnu : st.nextUuid ≤ st2.nextUuid)
    (hg : ∀ s ∈ st.submissions,
      (¬(s.miner_hotkey = miner ∧ s.post_id = post_id) → g s = s)
      ∧ ((s.miner_hotkey = miner ∧ s.post_id = post_id) →
          (g s).miner_hotkey = s.miner_hotkey ∧ (g s).post_id = s.post_id
          ∧ (g s).selected_for_validation = s.selected_for_validation
          ∧ (g s).validation_id = s.validation_id))
    (hunsel : ∀ s ∈ st.submissions, s.miner_hotkey = miner → s.post_id = post_id →
      s.selected_for_validation = false)
    (h : StateInv st) : StateInv st2 := by
  obtain ⟨h1, h2, h3, h4⟩ := h
  have hkeys : ∀ s ∈ st.submissions, (g s).miner_hotkey = s.miner_hotkey
      ∧ (g s).post_id = s.post_id ∧ (g s).validation_id = s.validation_id
      ∧ (g s).selected_for_validation = s.selected_for_validation := by
    intro s hs
    by_cases hm : s.miner_hotkey = miner ∧ s.post_id = post_id
    · obtain ⟨e1, e2, e3, e4⟩ := (hg s hs).2 hm
      exact ⟨e1, e2, e4, e3⟩
    · rw [(hg s hs).1 hm]
      exact ⟨rfl, rfl, rfl, rfl⟩
  refine ⟨?_, ?_, ?_, ?_⟩
  · rw [SubmissionKeysDistinct, hsub, List.pairwise_map]
    refine List.Pairwise.imp_of_mem ?_ h1
    intro a b ha hb hab hcontra
    refine hab ⟨?_, ?_⟩
    · rw [← (hkeys a ha).1, ← (hkeys b hb).1]
      exact hcontra.1
    · rw [← (hkeys a ha).2.1, ← (hkeys b hb).2.1]
      exact hcontra.2
  · intro s2 hmem
    rw [hsub] at hmem
    obtain ⟨s, hsmem, rfl⟩ := List.mem_map.mp hmem
    by_cases hm : s.miner_hotkey = miner ∧ s.post_id = post_id
    · obtain ⟨_, _, e3, e4⟩ := (hg s hsmem).2 hm
      have hself : s.selected_for_validation = false := hunsel s hsmem hm.1 hm.2
      have hvidnone : s.validation_id = none := by
        by_contra hne
        have := (h2 s hsmem).mp hne
        rw [hself] at this
        exact absurd this.1 (by simp)
      rw [e4, e3, hself, hvidnone]
      simp
    · rw [(hg s hsmem).1 hm]
      exact h2 s hsmem
  · rw [VidsUnique, hsub, List.pairwise_map]
    refine List.Pairwise.imp_of_mem ?_ h3
    intro a b ha hb hab v hv
    rw [(hkeys a ha).2.2.1] at hv
    rw [(hkeys b hb).2.2.1]
    exact hab v hv
  · intro s2 hmem v hv
    rw [hsub] at hmem
    obtain ⟨s, hsmem, rfl⟩ := List.mem_map.mp hmem
    rw [(hkeys s hsmem).2.2.1] at hv
    exact lt_of_lt_of_le (h4 s hsmem v hv) hnu

theorem stateInv_promote_map {st st2 : State} {miner post_id : String}
    {g : Submission → Submission}
    (hsub : st2.submissions = st.submissions.map g)
    (hnu : st2.nextUuid = st.nextUuid + 1)
    (hg : ∀ s ∈ st.submissions,
      (¬(s.miner_hotkey = miner ∧ s.post_id = post_id) → g s = s)
      ∧ ((s.miner_hotkey = miner ∧ s.post_id = post_id) →
          (g s).miner_hotkey = s.miner_hotkey ∧ (g s).post_id = s.post_id
          ∧ (g s).selected_for_validation = true
          ∧ (g s).x_validation_result = some true
          ∧ (g s).validation_id = some st.nextUuid))
    (h : StateInv st) : StateInv st2 := by
  obtain ⟨h1, h2, h3, h4⟩ := h
  have hkeys : ∀ s ∈ st.submissions, (g s).miner_hotkey = s.miner_hotkey
      ∧ (g s).post_id = s.post_id := by
    intro s hs
    by_cases hm : s.miner_hotkey = miner ∧ s.post_id = post_id
    · exact ⟨((hg s hs).2 hm).1, ((hg s hs).2 hm).2.1⟩
    · rw [(hg s hs).1 hm]
      exact ⟨rfl, rfl⟩
  refine ⟨?_, ?_, ?_, ?_⟩
  · rw [SubmissionKeysDistinct, hsub, List.pairwise_map]
    refine List.Pairwise.imp_of_mem ?_ h1
    intro a b ha hb hab hcontra
    refine hab ⟨?_, ?_⟩
    · rw [← (hkeys a ha).1, ← (hkeys b hb).1]
      exact hcontra.1
    · rw [← (hkeys a ha).2, ← (hkeys b hb).2]
      exact hcontra.2
  · intro s2 hmem
    rw [hsub] at hmem
    obtain ⟨s, hsmem, rfl⟩ := List.mem_map.mp hmem
    by_cases hm : s.miner_hotkey = miner ∧ s.post_id = post_id
    · obtain ⟨_, _, e3, e4, e5⟩ := (hg s hsmem).2 hm
      rw [e3, e4, e5]
      simp
    · rw [(hg s hsmem).1 hm]
      exact h2 s hsmem
  · rw [VidsUnique, hsub, List.pairwise_map]
    refine List.Pairwise.imp_of_mem ?_ (h1.and h3)
    intro a b ha hb hab v hv
    by_cases hma : a.miner_hotkey = miner ∧ a.post_id = post_id
    · by_cases hmb : b.miner_hotkey = miner ∧ b.post_id = post_id
      · exact absurd ⟨hma.1.trans hmb.1.symm, hma.2.trans hmb.2.symm⟩ hab.1
      · rw [((hg a ha).2 hma).2.2.2.2] at hv
        rw [(hg b hb).1 hmb]
        intro hbv
        have h5 : st.nextUuid = v := Option.some.inj hv
        have h6 := h4 b hb v hbv
        omega
    · by_cases hmb : b.miner_hotkey = miner ∧ b.post_id = post_id
      · rw [(hg a ha).1 hma] at hv
        rw [((hg b hb).2 hmb).2.2.2.2]
        intro hbv
        have h5 : st.nextUuid = v := Option.some.inj hbv
        have h6 := h4 a ha v hv
        omega
      · rw [(hg a ha).1 hma] at hv
        rw [(hg b hb).1 hmb]
        exact hab.2 v hv
  · intro s2 hmem v hv
    rw [hsub] at hmem
    obtain ⟨s, hsmem, rfl⟩ := List.mem_map.mp hmem
    rw [hnu]
    by_cases hm : s.miner_hotkey = miner ∧ s.post_id = post_id
    · rw [((hg s hsmem).2 hm).2.2.2.2] at hv
      have h5 : st.nextUuid = v := Option.some.inj hv
      omega
    · rw [(hg s hsmem).1 hm] at hv
      have := h4 s hsmem v hv
      omega

theorem stateInv_store_outcome (miner post_id : String) (valid : Bool)
    (err : Option String) (now : ℤ) (st : State) (h : StateInv st)
    (hunsel : ∀ s ∈ st.submissions, s.miner_hotkey = miner → s.post_id = post_id →
      s.selected_for_validation = false) :
    StateInv (select_post_store_outcome miner post_id valid err now st).2 := by
  cases valid with
  | false =>
    refine @stateInv_markX_map st _ miner post_id
      (fun s => if s.miner_hotkey = miner ∧ s.post_id = post_id then { s with x_validated := true, x_validation_result := some false, x_validated_at := some now, x_validation_error := err } else s)
      rfl (le_of_eq rfl) ?_ hunsel h
    intro s _
    constructor
    · intro hm
      exact if_neg hm
    · intro hm
      dsimp only
      rw [if_pos hm]
      exact ⟨rfl, rfl, rfl, rfl⟩
  | true =>
    have he : (select_post_store_outcome miner post_id true err now st).2
        = (select_post_mark_selected miner post_id st.nextUuid { st with submissions := markXPassed miner post_id now st.submissions, nextUuid := st.nextUuid + 1 }).2 := rfl
    rw [he]
    rcases mark_selected_state_cases miner post_id st.nextUuid { st with submissions := markXPassed miner post_id now st.submissions, nextUuid := st.nextUuid + 1 } with hcase | hcase
    · rw [hcase]
      refine @stateInv_markX_map st _ miner post_id
        (fun s => if s.miner_hotkey = miner ∧ s.post_id = post_id then { s with x_validated := true, x_validation_result := some true, x_validated_at := some now, x_validation_error := none } else s)
        rfl (Nat.le_succ _) ?_ hunsel h
      intro s _
      constructor
      · intro hm
        exact if_neg hm
      · intro hm
        dsimp only
        rw [if_pos hm]
        exact ⟨rfl, rfl, rfl, rfl⟩
    · rw [hcase]
      have hsub2 : casSelect miner post_id st.nextUuid (markXPassed miner post_id now st.submissions)
          = st.submissions.map ((fun s => if s.miner_hotkey = miner ∧ s.post_id = post_id ∧ s.selected_for_validation = false then { s with selected_for_validation := true, validation_id := some st.nextUuid } else s) ∘ (fun s => if s.miner_hotkey = miner ∧ s.post_id = post_id then { s with x_validated := true, x_validation_result := some true, x_validated_at := some now, x_validation_error := none } else s)) := by
        unfold casSelect markXPassed
        rw [List.map_map]
      refine @stateInv_promote_map st _ miner post_id _
        hsub2 rfl ?_ h
      intro s hs
      constructor
      · intro hm
        have hm2 : ¬(s.miner_hotkey = miner ∧ s.post_id = post_id
            ∧ s.selected_for_validation = false) := fun hc => hm ⟨hc.1, hc.2.1⟩
        dsimp only [Function.comp]
        rw [if_neg hm, if_neg hm2]
      · intro hm
        have hself : s.selected_for_validation = false := hunsel s hs hm.1 hm.2
        dsimp only [Function.comp]
        rw [if_pos hm]
        split
        · exact ⟨rfl, rfl, rfl, rfl, rfl⟩
        · next hcond =>
          exact absurd ⟨hm.1, hm.2, hself⟩ hcond

theorem stateInv_promote (miner post_id : String) (coin valid : Bool)
    (err : Option String) (now : ℤ) (st : State) (h : StateInv st) :
    StateInv (select_post_for_validation miner post_id coin valid err now st).2 := by
  cases hfind : st.submissions.find? (fun s =>
      decide (s.miner_hotkey = miner ∧ s.post_id = post_id)) with
  | none =>
    have hunsel : ∀ s ∈ st.submissions, s.miner_hotkey = miner → s.post_id = post_id →
        s.selected_for_validation = false := by
      intro s hs hm1 hm2
      have hnm := List.find?_eq_none.mp hfind s hs
      simp only [decide_eq_true_eq] at hnm
      exact absurd ⟨hm1, hm2⟩ hnm
    by_cases hcoin : coin = false
    · have he : (select_post_for_validation miner post_id coin valid err now st).2 = st := by
        simp only [select_post_for_validation, hfind]
        rw [if_pos hcoin]
      rw [he]
      exact h
    · have he : (select_post_for_validation miner post_id coin valid err now st).2
          = (select_post_validate_and_store miner post_id valid err now st).2 := by
        simp only [select_post_for_validation, hfind]
        rw [if_neg hcoin]
      have he2 : (select_post_validate_and_store miner post_id valid err now st).2
          = (select_post_store_outcome miner post_id valid err now st).2 := by
        simp only [select_post_validate_and_store, hfind]
      rw [he, he2]
      exact stateInv_store_outcome miner post_id valid err now st h hunsel
  | some row =>
    have hrowpred := List.find?_some hfind
    have hrowmem := List.mem_of_find?_eq_some hfind
    simp only [decide_eq_true_eq] at hrowpred
    by_cases hsel : row.selected_for_validation = true
    · have he : (select_post_for_validation miner post_id coin valid err now st).2 = st := by
        simp only [select_post_for_validation, hfind]
        rw [if_pos hsel]
        split <;> rfl
      rw [he]
      exact h
    · have hrowsel : row.selected_for_validation = false := by
        cases hb : row.selected_for_validation
        · rfl
        · exact absurd hb hsel
      have hunsel : ∀ s ∈ st.submissions, s.miner_hotkey = miner → s.post_id = post_id →
          s.selected_for_validation = false := by
        intro s hs hm1 hm2
        have hseq : s = row := eq_of_pairwise_keys h.1 hs hrowmem
          (hm1.trans hrowpred.1.symm) (hm2.trans hrowpred.2.symm)
        rw [hseq]
        exact hrowsel
      by_cases hcoin : coin = false
      · have he : (select_post_for_validation miner post_id coin valid err now st).2 = st := by
          simp only [select_post_for_validation, hfind]
          rw [if_neg hsel, if_pos hcoin]
        rw [he]
        exact h
      · have he : (select_post_for_validation miner post_id coin valid err now st).2
            = (select_post_validate_and_store miner post_id valid err now st).2 := by
          simp only [select_post_for_validation, hfind]
          rw [if_neg hsel, if_neg hcoin]
        have he2 : (select_post_validate_and_store miner post_id valid err now st).2
            = (select_post_store_outcome miner post_id valid err now st).2 := by
          simp only [select_post_validate_and_store, hfind]
          rw [if_neg (fun hc => hsel hc.1), if_neg (fun hc => hsel hc.1)]
        rw [he, he2]
        exact stateInv_store_outcome miner post_id valid err now st h hunsel

theorem stateInv_step {s t : State} (h : StateInv s) (hstep : Step s t) :
    StateInv t := by
  cases hstep with
  | insert cfg post now b => exact stateInv_insert cfg post now b s h
  | promote miner post_id coin valid err now =>
    exact stateInv_promote miner post_id coin valid err now s h
  | claim cfg validator now =>
    exact stateInv_congr (getPending_fields cfg validator now s).1
      (le_of_eq (getPending_fields cfg validator now s).2.symm) h
  | record validator vid miner success fr now =>
    exact stateInv_congr (record_fields validator vid miner success fr now s).1
      (le_of_eq (record_fields validator vid miner success fr now s).2.symm) h
  | scores cfg b now =>
    rcases getScores_state_cases cfg b now s with heq | ⟨pws, pwe, heq⟩
    · exact stateInv_congr (by rw [heq]) (by rw [heq]) h
    · obtain ⟨g, hg1, hg2⟩ := persist_submissions_map cfg pws pwe
        (calculate_window_scores_detailed s pws pwe) now s
      refine stateInv_map_preserving (f := g) ?_ ?_ hg2 h
      · rw [heq]
        exact (recompute_state_fields cfg b pws pwe now s).1.trans hg1
      · rw [heq]
        exact le_of_eq (recompute_state_fields cfg b pws pwe now s).2.symm

theorem stateInv_reachable {st : State} (h : Reachable st) : StateInv st := by
  induction h with
  | refl => exact stateInv_init
  | tail hsteps hstep ih => exact stateInv_step ih hstep

/-! ## Claim C3 -/

/-- Claim C3 (confirmed): in every reachable database state, a
submission's validation_id is non-null iff `selected_for_validation = 1`
and `x_validation_result = 1`, and non-null validation ids are globally
unique across submissions; the proof is by induction over every operation
of the system (insertion, promotion success, promotion failure,
re-promotion, dispatch, result recording, window finalization), each of
which preserves the invariant. -/
theorem C3_validation_id_invariant (st : State) (h : Reachable st) :
    (∀ s ∈ st.submissions, (s.validation_id ≠ none ↔
        (s.selected_for_validation = true ∧ s.x_validation_result = some true)))
    ∧ st.submissions.Pairwise (fun s1 s2 =>
        ∀ v, s1.validation_id = some v → s2.validation_id ≠ some v) :=
  ⟨(stateInv_reachable h).2.1, (stateInv_reachable h).2.2.1⟩

/-- Witness for C3: the state reached by inserting one submission into the
fresh database has globally unique non-null validation ids. -/
theorem C3_validation_id_invariant_witness :
    (insert_submission Config.default (samplePost "m1" "p1") 7 150 initState).2.submissions.Pairwise
      (fun s1 s2 => ∀ v, s1.validation_id = some v → s2.validation_id ≠ some v) :=
  (C3_validation_id_invariant
    (insert_submission Config.default (samplePost "m1" "p1") 7 150 initState).2
    (Relation.ReflTransGen.single
      (Step.insert Config.default (samplePost "m1" "p1") 7 150 initState))).2

end Talisman

